import Mathlib

/-!
# Streaming demo server (`main.go`): embedding and verified properties

The Go program is a small HTTP server with three streaming handlers
(`streamSSE`, `streamNDJSON`, `streamLoop`), a snapshot handler
(`standardData`) and a CORS middleware (`enableCORS`).

Embedding conventions

* Go strings are Lean `String`s (all literals of the program are ASCII).
* The package-level slices filled by `init` are the fields of `Globals`.
* A handler is a function on an explicit `ResponseWriter` state.
* The `select` of the streaming loops is driven by a schedule: the list of
  the cases that win the successive races (`Sel.tick` or `Sel.done`).  A
  schedule that is used up leaves the handler blocked in its `select`.
* `Result.chunks` lists the `Chunk` values a handler has marshalled and
  written; they are what a client decodes from the body (`streamSSE_decoded`,
  `streamNDJSON_decoded`).
* Output to the process's standard output (`fmt.Println`, `fmt.Printf`) is
  not part of the model.
* `streamLoop` counts with a Go `int`; its overflow is modelled with an
  explicit wrap-around (`wrapInt`), the size of `int` being a parameter.
-/

namespace SseApi

/-! ## Library functions used by the program -/

namespace strings

/-- Scanner of `strings.Split` for a non-empty separator: `cur` holds the
characters of the piece being read (most recent first).  At every position
where `sep` starts the piece is closed and the scan resumes after the
separator.  `fuel` bounds the number of positions visited; the length of the
input is always enough (`genSplit_fuel`). -/
def genSplit (sep : List Char) : Nat → List Char → List Char → List (List Char)
  | _, cur, [] => [cur.reverse]
  | 0, cur, c :: cs => [cur.reverse ++ c :: cs]
  | fuel + 1, cur, c :: cs =>
    if sep.isPrefixOf (c :: cs) then
      cur.reverse :: genSplit sep fuel [] ((c :: cs).drop sep.length)
    else genSplit sep fuel (c :: cur) cs

/-- Go `strings.Split(s, sep)`: the substrings of `s` between the
occurrences of `sep` (one more piece than there are occurrences); an empty
`sep` splits after each character. -/
def Split (s sep : String) : List String :=
  if sep.data = [] then s.data.map (fun c => String.mk [c])
  else (genSplit sep.data s.data.length [] s.data).map String.mk

/-- Go `strings.Join(elems, sep)`: the elements in order with `sep` between
consecutive ones. -/
def Join : List String → String → String
  | [], _ => ""
  | [a], _ => a
  | a :: b :: rest, sep => a ++ sep ++ Join (b :: rest) sep

/-- `strings.Join` on lists of characters. -/
def joinChars : List (List Char) → List Char → List Char
  | [], _ => []
  | [a], _ => a
  | a :: b :: rest, sep => a ++ sep ++ joinChars (b :: rest) sep

end strings

/-! ## Package-level data -/

/-- The `paragraph` literal of `init`. -/
def paragraph : String :=
  "Large Language Models, often abbreviated as LLMs, are a type of artificial intelligence model trained on vast amounts of text data. They are designed to understand, generate, and respond to human language in a coherent and contextually relevant manner. This streaming demonstration mimics how an LLM might deliver its response token by token, providing a more interactive user experience rather than waiting for the entire output to be generated. Each word you see is a separate chunk of data sent from the server. This technique is crucial for applications that require real-time feedback, such as chatbots and live content generation."

/-- The `paragraphNdjson` literal of `init`. -/
def paragraphNdjson : String :=
  "This NDJSON demonstration mimics how Ollama or other LLM APIs send responses as newline-delimited JSON objects. Each line you see is a chunk of data, separated by a newline, until the final finish signal is sent. Large Language Models, often abbreviated as LLMs, are a type of artificial intelligence model trained on vast amounts of text data. They are designed to understand, generate, and respond to human language in a coherent and contextually relevant manner. This streaming demonstration mimics how an LLM might deliver its response token by token, providing a more interactive user experience rather than waiting for the entire output to be generated."

/-- The `loop` literal of `init`. -/
def loop : String :=
  "The quick brown fox jumped over the lazy dog. The sun was shining brightly in the clear blue sky. A gentle breeze rustled the leaves of the trees as the birds sang their sweet melodies. In the distance, the sound of children's laughter echoed through the air."

/-- The three package-level word slices. -/
structure Globals where
  textWords : List String
  textWordsNdjson : List String
  loopText : List String

/-- Go `init()`: each slice is its paragraph split on the space. -/
def init : Globals where
  textWords := strings.Split paragraph " "
  textWordsNdjson := strings.Split paragraphNdjson " "
  loopText := strings.Split loop " "

/-! ## Response writer, request, handler results -/

/-- Go `type Chunk struct`: one unit of streamed output. -/
structure Chunk where
  Content : String
  Finish : Bool
  deriving DecidableEq, Repr

namespace json

/-- Lower-case hexadecimal digit of a number below 16. -/
def hexDigit (n : Nat) : Char :=
  "0123456789abcdef".data.getD n '0'

/-- Escape written by `encoding/json` for one character of a string (HTML
escaping on, as `json.Marshal` and a fresh `json.Encoder` have it). -/
def escapeChar (c : Char) : List Char :=
  if c = '"' then ['\\', '"']
  else if c = '\\' then ['\\', '\\']
  else if c = '\n' then ['\\', 'n']
  else if c = '\r' then ['\\', 'r']
  else if c = '\t' then ['\\', 't']
  else if c.toNat = 8 then ['\\', 'b']
  else if c.toNat = 12 then ['\\', 'f']
  else if c.toNat < 32 ∨ c = '<' ∨ c = '>' ∨ c = '&' then
    ['\\', 'u', '0', '0', hexDigit (c.toNat / 16), hexDigit (c.toNat % 16)]
  else if c.toNat = 8232 then ['\\', 'u', '2', '0', '2', '8']
  else if c.toNat = 8233 then ['\\', 'u', '2', '0', '2', '9']
  else [c]

/-- JSON string literal for a Go string. -/
def quote (s : String) : String :=
  String.mk ('"' :: (s.data.flatMap escapeChar ++ ['"']))

/-- JSON literal of a Go `bool`. -/
def bool (b : Bool) : String :=
  if b then "true" else "false"

/-- Go `json.Marshal(chunk)` for a `Chunk` (fields in declaration order under
their tags `content` and `finish`). -/
def Marshal (c : Chunk) : String :=
  "\x7b\"content\":" ++ quote c.Content ++ ",\"finish\":" ++ bool c.Finish ++ "\x7d"

end json

/-- State of an `http.ResponseWriter` as the handlers see it. -/
structure ResponseWriter where
  /-- Whether the dynamic type of the writer implements `http.Flusher`. -/
  flusher : Bool
  /-- The header map returned by `Header()`. -/
  header : List (String × String)
  /-- Status code, once the status line has been written. -/
  status : Option Nat
  /-- The header as it was sent together with the status line. -/
  sent : List (String × String)
  /-- The body: the successive writes, in order. -/
  body : List String
  /-- Number of writes pushed to the client by `Flush`. -/
  flushed : Nat
  deriving DecidableEq, Repr

namespace ResponseWriter

/-- A writer at the start of a request. -/
def new (flusher : Bool) : ResponseWriter :=
  ⟨flusher, [], none, [], [], 0⟩

/-- Go `w.Header().Set(key, value)`. -/
def Set (w : ResponseWriter) (key value : String) : ResponseWriter :=
  { w with header := w.header.filter (fun kv => kv.1 != key) ++ [(key, value)] }

/-- Go `w.Header().Get(key)` on the header map. -/
def Get (hdr : List (String × String)) (key : String) : Option String :=
  (hdr.find? (fun kv => kv.1 == key)).map Prod.snd

/-- Go `w.WriteHeader(code)`: sends the status line with the current header;
a second call changes nothing. -/
def WriteHeader (w : ResponseWriter) (code : Nat) : ResponseWriter :=
  match w.status with
  | none => { w with status := some code, sent := w.header }
  | some _ => w

/-- Go `w.Write(data)` (through `fmt.Fprint*` or an encoder): the status line
is sent with 200 first if it has not been sent. -/
def Write (w : ResponseWriter) (data : String) : ResponseWriter :=
  let w1 := w.WriteHeader 200
  { w1 with body := w1.body ++ [data] }

/-- Go `flusher.Flush()`. -/
def Flush (w : ResponseWriter) : ResponseWriter :=
  let w1 := w.WriteHeader 200
  { w1 with flushed := w1.body.length }

end ResponseWriter

/-- Winner of one race of a streaming loop's `select`. -/
inductive Sel where
  /-- The case `<-r.Context().Done()`. -/
  | done
  /-- The case `<-ticker.C`. -/
  | tick
  deriving DecidableEq, Repr

/-- What a handler reads of `*http.Request` and of its environment while it
serves the request. -/
structure Request where
  Method : String
  /-- Winners of the successive `select` races, in order. -/
  races : List Sel
  /-- Value of `time.Now().Format(time.RFC3339)` during the request. -/
  now : String

/-- How the execution of a handler stands when its schedule is used up. -/
inductive Exit where
  /-- The handler has returned. -/
  | returned
  /-- The handler is blocked in `select`, waiting for the next race. -/
  | waiting
  /-- The handler has panicked (run-time error). -/
  | panicked
  deriving DecidableEq, Repr

/-- Outcome of a handler: the writer, the chunks it has marshalled and
written (in order), and how the execution stands. -/
structure Result where
  w : ResponseWriter
  chunks : List Chunk
  exit : Exit
  deriving DecidableEq, Repr

/-- Go `http.HandlerFunc`. -/
abbrev HandlerFunc := ResponseWriter → Request → Result

namespace http

/-- Go `http.StatusOK`. -/
def StatusOK : Nat := 200

/-- Go `http.StatusInternalServerError`. -/
def StatusInternalServerError : Nat := 500

/-- Go `http.Error(w, error, code)`: plain-text content type, the status
line, then the message as one line. -/
def Error (w : ResponseWriter) (error : String) (code : Nat) : ResponseWriter :=
  let w1 := w.Set "Content-Type" "text/plain; charset=utf-8"
  let w2 := w1.Set "X-Content-Type-Options" "nosniff"
  let w3 := w2.WriteHeader code
  w3.Write (error ++ "\n")

end http

/-! ## The handlers -/

/-- Go `enableCORS`: the CORS middleware. -/
def enableCORS (next : HandlerFunc) : HandlerFunc := fun w r =>
  let w1 := w.Set "Access-Control-Allow-Origin" "*"
  let w2 := w1.Set "Access-Control-Allow-Methods" "GET, OPTIONS"
  let w3 := w2.Set "Access-Control-Allow-Headers" "Content-Type"
  if r.Method = "OPTIONS" then
    ⟨w3.WriteHeader http.StatusOK, [], Exit.returned⟩
  else next w3 r

/-- The `for i := 0; i <= len(textWords); i++ { select ... }` loop of
`streamSSE`, entered with counter `i`.  The counter stays within
`0 .. len(textWords)`, so it never overflows. -/
def streamSSE.forLoop (g : Globals) (w : ResponseWriter) (i : Nat) (races : List Sel) : Result :=
  if i ≤ g.textWords.length then
    match races with
    | [] => ⟨w, [], Exit.waiting⟩
    | Sel.done :: _ => ⟨w, [], Exit.returned⟩
    | Sel.tick :: rest =>
      let chunk : Chunk :=
        if h : i < g.textWords.length then ⟨g.textWords[i] ++ " ", false⟩ else ⟨"", true⟩
      let jsonData := json.Marshal chunk
      let w1 := (w.Write ("data: " ++ jsonData ++ "\n\n")).Flush
      if chunk.Finish then ⟨w1, [chunk], Exit.returned⟩
      else
        let r := streamSSE.forLoop g w1 (i + 1) rest
        ⟨r.w, chunk :: r.chunks, r.exit⟩
  else ⟨w, [], Exit.returned⟩

/-- Go `streamSSE`. -/
def streamSSE (g : Globals) : HandlerFunc := fun w r =>
  if !w.flusher then
    ⟨http.Error w "Streaming unsupported" http.StatusInternalServerError, [], Exit.returned⟩
  else
    let w1 := w.Set "Content-Type" "text/event-stream"
    let w2 := w1.Set "Cache-Control" "no-cache"
    let w3 := w2.Set "Connection" "keep-alive"
    streamSSE.forLoop g w3 0 r.races

/-- The `for i := 0; i <= len(textWordsNdjson); i++ { select ... }` loop of
`streamNDJSON`, entered with counter `i`. -/
def streamNDJSON.forLoop (g : Globals) (w : ResponseWriter) (i : Nat) (races : List Sel) :
    Result :=
  if i ≤ g.textWordsNdjson.length then
    match races with
    | [] => ⟨w, [], Exit.waiting⟩
    | Sel.done :: _ => ⟨w, [], Exit.returned⟩
    | Sel.tick :: rest =>
      let chunk : Chunk :=
        if h : i < g.textWordsNdjson.length then ⟨g.textWordsNdjson[i] ++ " ", false⟩
        else ⟨"", true⟩
      let w1 := (w.Write (json.Marshal chunk ++ "\n")).Flush
      if chunk.Finish then ⟨w1, [chunk], Exit.returned⟩
      else
        let r := streamNDJSON.forLoop g w1 (i + 1) rest
        ⟨r.w, chunk :: r.chunks, r.exit⟩
  else ⟨w, [], Exit.returned⟩

/-- Go `streamNDJSON`. -/
def streamNDJSON (g : Globals) : HandlerFunc := fun w r =>
  if !w.flusher then
    ⟨http.Error w "Streaming unsupported" http.StatusInternalServerError, [], Exit.returned⟩
  else
    let w1 := w.Set "Content-Type" "application/x-ndjson"
    let w2 := w1.Set "Cache-Control" "no-cache"
    let w3 := w2.Set "Connection" "keep-alive"
    streamNDJSON.forLoop g w3 0 r.races

/-- Go `int` arithmetic: the value of `x` in two's complement on `bits` bits. -/
def wrapInt (bits : Nat) (x : Int) : Int :=
  (x + 2 ^ (bits - 1)) % 2 ^ bits - 2 ^ (bits - 1)

/-- State of the loop of `streamLoop`: writer, counter `i`, and how the
execution stands. -/
structure LoopRun where
  w : ResponseWriter
  i : Int
  exit : Exit
  deriving DecidableEq, Repr

/-- The `for { select ... }` loop of `streamLoop`, entered with counter `i`
(`bits` is the size of Go's `int` on the target).  `i % len(loopText)` is
Go's remainder, which has the sign of `i`; a zero divisor or an index outside
the slice is a run-time panic. -/
def streamLoop.forLoop (bits : Nat) (g : Globals) (w : ResponseWriter) (i : Int) :
    List Sel → LoopRun
  | [] => ⟨w, i, Exit.waiting⟩
  | Sel.done :: _ => ⟨w, i, Exit.returned⟩
  | Sel.tick :: rest =>
    if g.loopText.length = 0 then ⟨w, i, Exit.panicked⟩
    else
      let idx := Int.tmod i g.loopText.length
      if idx < 0 then ⟨w, i, Exit.panicked⟩
      else
        match g.loopText[idx.toNat]? with
        | none => ⟨w, i, Exit.panicked⟩
        | some word =>
          let w1 := (w.Write ("data: " ++ word ++ "\n\n")).Flush
          streamLoop.forLoop bits g w1 (wrapInt bits (i + 1)) rest

/-- Go `streamLoop`. -/
def streamLoop (bits : Nat) (g : Globals) : HandlerFunc := fun w r =>
  if !w.flusher then
    ⟨http.Error w "Streaming unsupported" http.StatusInternalServerError, [], Exit.returned⟩
  else
    let w1 := w.Set "Content-Type" "text/event-stream"
    let w2 := w1.Set "Cache-Control" "no-cache"
    let w3 := w2.Set "Connection" "keep-alive"
    let run := streamLoop.forLoop bits g w3 0 r.races
    ⟨run.w, [], run.exit⟩

/-- One record of the `payload` array of `standardData`. -/
structure PayloadItem where
  point : Nat
  value : String
  deriving DecidableEq, Repr

/-- The `data` map built by `standardData`. -/
structure Data where
  id : String
  type : String
  title : String
  message : String
  author : String
  timestamp : String
  source : String
  payload : List PayloadItem
  deriving DecidableEq, Repr

/-- The `data` value of `standardData`, `now` being the formatted time. -/
def standardData.data (g : Globals) (now : String) : Data where
  id := "a1b2-c3d4-e5f6"
  type := "static_response"
  title := "Complete Static Data"
  message := strings.Join g.textWords " "
  author := "Practice API (Go)"
  timestamp := now
  source := "server-generated"
  payload := [⟨1, "First item"⟩, ⟨2, "Second item"⟩, ⟨3, "Third item"⟩]

namespace json

/-- JSON object of one payload record (map keys in sorted order). -/
def encodeItem (p : PayloadItem) : String :=
  "\x7b\"point\":" ++ toString p.point ++ ",\"value\":" ++ quote p.value ++ "\x7d"

/-- Output of `json.NewEncoder(w).Encode(data)` for the map of `standardData`:
keys in sorted order, then a newline. -/
def EncodeData (d : Data) : String :=
  "\x7b\"author\":" ++ quote d.author ++ ",\"id\":" ++ quote d.id
    ++ ",\"message\":" ++ quote d.message
    ++ ",\"metadata\":\x7b\"source\":" ++ quote d.source
    ++ ",\"timestamp\":" ++ quote d.timestamp ++ "\x7d"
    ++ ",\"payload\":[" ++ strings.Join (d.payload.map encodeItem) "," ++ "]"
    ++ ",\"title\":" ++ quote d.title ++ ",\"type\":" ++ quote d.type ++ "\x7d\n"

end json

/-- Go `standardData`. -/
def standardData (g : Globals) : HandlerFunc := fun w r =>
  let data := standardData.data g r.now
  let w1 := w.Set "Content-Type" "application/json"
  ⟨w1.Write (json.EncodeData data), [], Exit.returned⟩

/-- Go `healthCheck`. -/
def healthCheck : HandlerFunc := fun w r =>
  let w1 := w.Set "Content-Type" "application/json"
  ⟨w1.Write ("\x7b\"service\":\"LLM Practice API (Golang)\",\"status\":\"OK\",\"time\":"
    ++ json.quote r.now ++ "\x7d\n"), [], Exit.returned⟩

/-- Go `rootHandler`. -/
def rootHandler : HandlerFunc := fun w _ =>
  let w1 := w.Set "Content-Type" "text/html"
  ⟨w1.Write "\n\t\tPractice API server is running.<br>\n\t\tTry accessing:<br>\n\t\t- /stream-sse<br>\n\t\t- /stream-ndjson<br>\n\t\t- /api/data<br>\n\t\t- /stream-loop\n\t",
    [], Exit.returned⟩

/-- The routes registered on the mux by `main`, in order: pattern and
handler. -/
def main.routes (bits : Nat) (g : Globals) : List (String × HandlerFunc) :=
  [("/", enableCORS rootHandler),
   ("/stream-sse", enableCORS (streamSSE g)),
   ("/stream-ndjson", enableCORS (streamNDJSON g)),
   ("/stream-loop", enableCORS (streamLoop bits g)),
   ("/api/data", enableCORS (standardData g)),
   ("/health", enableCORS healthCheck)]

/-! ## Definitions used to state the properties -/

/-- Chunk carrying one token: the token followed by a space. -/
def tokenChunk (t : String) : Chunk := ⟨t ++ " ", false⟩

/-- The terminal chunk. -/
def finishChunk : Chunk := ⟨"", true⟩

/-- The timed emission loop as the specification words it (section 4.2), from
index `i`: on a tick, a token chunk and `i + 1` while `i < len(tokens)`,
otherwise the finish chunk and termination; on cancellation, termination
without a chunk.  Gives the chunks emitted and how the loop stands. -/
def TimedEmission.run (tokens : List String) (i : Nat) : List Sel → List Chunk × Exit
  | [] => ([], Exit.waiting)
  | Sel.done :: _ => ([], Exit.returned)
  | Sel.tick :: rest =>
    if h : i < tokens.length then
      (tokenChunk tokens[i] :: (TimedEmission.run tokens (i + 1) rest).1,
        (TimedEmission.run tokens (i + 1) rest).2)
    else ([finishChunk], Exit.returned)

/-- SSE frame of a chunk, as `streamSSE` writes it. -/
def sseFrame (c : Chunk) : String := "data: " ++ json.Marshal c ++ "\n\n"

/-- NDJSON line of a chunk, as `streamNDJSON` writes it. -/
def ndjsonLine (c : Chunk) : String := json.Marshal c ++ "\n"

/-- One emission: the frame is written and flushed. -/
def emit (frame : Chunk → String) (w : ResponseWriter) (c : Chunk) : ResponseWriter :=
  (w.Write (frame c)).Flush

/-- What a client gets by concatenating, in emission order, the `content` of
the chunks that are not finish chunks. -/
def concatContent : List Chunk → String
  | [] => ""
  | c :: cs => if c.Finish then concatContent cs else c.Content ++ concatContent cs

/-- The header map after the three `Set` calls of `enableCORS` on a new
writer. -/
def corsHeader : List (String × String) :=
  [("Access-Control-Allow-Origin", "*"), ("Access-Control-Allow-Methods", "GET, OPTIONS"),
    ("Access-Control-Allow-Headers", "Content-Type")]

/-- Frame `k` of the looping stream: the raw word `loopText[k mod L]` in an
SSE `data:` line, `L` being `len(loopText)`. -/
def loopFrame (g : Globals) (k : Nat) : String :=
  "data: " ++ (g.loopText[k % g.loopText.length]?).getD "" ++ "\n\n"

/-- A raw frame is written and flushed. -/
def writeFlush (w : ResponseWriter) (frame : String) : ResponseWriter :=
  (w.Write frame).Flush

namespace json

/-- Value of a lower-case hexadecimal digit. -/
def hexVal (c : Char) : Nat :=
  "0123456789abcdef".data.indexOf c

/-- Reads one character of a JSON string body: a character written as
itself, or an escape.  Gives the character and the rest. -/
def unescape : List Char → Option (Char × List Char)
  | [] => none
  | c :: rest =>
    if c = '\\' then
      match rest with
      | [] => none
      | e :: r =>
        if e = '"' then some ('"', r)
        else if e = '\\' then some ('\\', r)
        else if e = 'n' then some ('\n', r)
        else if e = 'r' then some ('\r', r)
        else if e = 't' then some ('\t', r)
        else if e = 'b' then some (Char.ofNat 8, r)
        else if e = 'f' then some (Char.ofNat 12, r)
        else if e = 'u' then
          match r with
          | a :: b :: c :: d :: r1 =>
            some (Char.ofNat (((hexVal a * 16 + hexVal b) * 16 + hexVal c) * 16 + hexVal d), r1)
          | _ => none
        else none
    else some (c, rest)

/-- Reads the body of a JSON string up to its closing quote: the decoded
characters and what follows the quote. -/
def unquote : Nat → List Char → Option (List Char × List Char)
  | 0, _ => none
  | _ + 1, [] => none
  | fuel + 1, c :: rest =>
    if c = '"' then some ([], rest)
    else
      match unescape (c :: rest) with
      | none => none
      | some (d, rest1) =>
        match unquote fuel rest1 with
        | none => none
        | some (s, r) => some (d :: s, r)

/-- Decoder of the JSON objects that `Marshal` writes for a `Chunk`. -/
def Unmarshal (s : String) : Option Chunk :=
  if "\x7b\"content\":\"".data.isPrefixOf s.data then
    match unquote s.data.length (s.data.drop 12) with
    | none => none
    | some (content, rest) =>
      if rest = ",\"finish\":true\x7d".data then some ⟨String.mk content, true⟩
      else if rest = ",\"finish\":false\x7d".data then some ⟨String.mk content, false⟩
      else none
  else none

end json

/-- Client-side reading of one SSE frame of `/stream-sse`: the JSON object
between `data: ` and the blank line. -/
def decodeSSE (frame : String) : Option Chunk :=
  match frame.data.reverse with
  | c :: d :: r =>
    if c = '\n' ∧ d = '\n' ∧ "data: ".data.isPrefixOf r.reverse then
      json.Unmarshal (String.mk (r.reverse.drop 6))
    else none
  | _ => none

/-- Client-side reading of one line of `/stream-ndjson`. -/
def decodeNDJSON (line : String) : Option Chunk :=
  match line.data.reverse with
  | c :: r => if c = '\n' then json.Unmarshal (String.mk r.reverse) else none
  | [] => none

/-- Reads every frame of a body; fails when one frame does. -/
def decodeAll (dec : String → Option Chunk) : List String → Option (List Chunk)
  | [] => some []
  | f :: fs =>
    match dec f, decodeAll dec fs with
    | some c, some cs => some (c :: cs)
    | _, _ => none

/-! ## Facts about `strings.Split` and `strings.Join` -/

namespace strings

theorem genSplit_ne_nil (sep : List Char) (fuel : Nat) (cur rest : List Char) :
    genSplit sep fuel cur rest ≠ [] := by
  cases rest with
  | nil => simp [genSplit]
  | cons c cs =>
    cases fuel with
    | zero => simp [genSplit]
    | succ f =>
      unfold genSplit
      split <;> first | exact List.cons_ne_nil _ _ | exact genSplit_ne_nil sep f _ _
termination_by rest.length

theorem joinChars_cons (a : List Char) (l : List (List Char)) (sep : List Char) (hl : l ≠ []) :
    joinChars (a :: l) sep = a ++ sep ++ joinChars l sep := by
  cases l with
  | nil => exact absurd rfl hl
  | cons b rest => rfl

/-- Joining the pieces of the scanner gives back what it was given. -/
theorem joinChars_genSplit (sep : List Char) (fuel : Nat) :
    ∀ cur rest : List Char, joinChars (genSplit sep fuel cur rest) sep = cur.reverse ++ rest := by
  induction fuel with
  | zero =>
    intro cur rest
    cases rest <;> simp [genSplit, joinChars]
  | succ f ih =>
    intro cur rest
    cases rest with
    | nil => simp [genSplit, joinChars]
    | cons c cs =>
      unfold genSplit
      split
      · rename_i hp
        rw [joinChars_cons _ _ _ (genSplit_ne_nil _ _ _ _), ih]
        obtain ⟨t, ht⟩ := List.isPrefixOf_iff_prefix.mp hp
        rw [← ht]
        simp
      · rw [ih]
        simp

/-- The fuel given by `Split` is enough: any larger fuel gives the same
pieces. -/
theorem genSplit_fuel (sep : List Char) (hsep : sep ≠ []) (f₁ : Nat) :
    ∀ (f₂ : Nat) (cur rest : List Char), rest.length ≤ f₁ → rest.length ≤ f₂ →
      genSplit sep f₁ cur rest = genSplit sep f₂ cur rest := by
  induction f₁ with
  | zero =>
    intro f₂ cur rest h₁ _
    have : rest = [] := List.length_eq_zero.mp (Nat.le_zero.mp h₁)
    subst this
    cases f₂ <;> simp [genSplit]
  | succ f ih =>
    intro f₂ cur rest h₁ h₂
    cases rest with
    | nil => cases f₂ <;> simp [genSplit]
    | cons c cs =>
      cases f₂ with
      | zero => simp at h₂
      | succ f₂ =>
        have hlen : 0 < sep.length := List.length_pos.mpr hsep
        simp only [List.length_cons, Nat.add_le_add_iff_right] at h₁ h₂
        unfold genSplit
        split
        · congr 1
          apply ih
          · simp only [List.length_drop, List.length_cons]; omega
          · simp only [List.length_drop, List.length_cons]; omega
        · exact ih _ _ _ h₁ h₂

theorem Join_data (l : List (List Char)) (sep : String) :
    (Join (l.map String.mk) sep).data = joinChars l sep.data := by
  induction l with
  | nil => rfl
  | cons a rest ih =>
    cases rest with
    | nil => rfl
    | cons b rest =>
      simp only [List.map_cons, Join, joinChars, String.data_append]
      simp only [List.map_cons] at ih
      rw [ih]

/-- Rejoining the pieces of a split with the separator gives the string
back. -/
theorem Join_Split (s sep : String) (hsep : sep ≠ "") : Join (Split s sep) sep = s := by
  have hd : sep.data ≠ [] := fun h => hsep (String.ext h)
  apply String.ext
  unfold Split
  rw [if_neg hd, Join_data, joinChars_genSplit]
  simp

theorem Split_ne_nil (s sep : String) (hsep : sep ≠ "") : Split s sep ≠ [] := by
  have hd : sep.data ≠ [] := fun h => hsep (String.ext h)
  unfold Split
  rw [if_neg hd]
  simpa using genSplit_ne_nil _ _ _ _

end strings


/-! ## The timed emission loop of the specification -/

/-- The loop of `streamSSE` refines the timed emission loop over `textWords`
and writes the SSE frame of each chunk. -/
theorem streamSSE_forLoop_eq (g : Globals) (races : List Sel) :
    ∀ (w : ResponseWriter) (i : Nat), i ≤ g.textWords.length →
      streamSSE.forLoop g w i races =
        ⟨(TimedEmission.run g.textWords i races).1.foldl (emit sseFrame) w,
          (TimedEmission.run g.textWords i races).1,
          (TimedEmission.run g.textWords i races).2⟩ := by
  induction races with
  | nil => intro w i hi; simp [streamSSE.forLoop, TimedEmission.run, hi]
  | cons s rest ih =>
    intro w i hi
    cases s with
    | done => simp [streamSSE.forLoop, TimedEmission.run, hi]
    | tick =>
      unfold streamSSE.forLoop TimedEmission.run
      by_cases h : i < g.textWords.length
      · simp only [hi, h, if_true, dite_true]
        rw [ih _ _ (Nat.succ_le_of_lt h)]
        simp [tokenChunk, emit, sseFrame]
      · simp [hi, h, finishChunk, emit, sseFrame]

/-- The loop of `streamNDJSON` refines the timed emission loop over
`textWordsNdjson` and writes the NDJSON line of each chunk. -/
theorem streamNDJSON_forLoop_eq (g : Globals) (races : List Sel) :
    ∀ (w : ResponseWriter) (i : Nat), i ≤ g.textWordsNdjson.length →
      streamNDJSON.forLoop g w i races =
        ⟨(TimedEmission.run g.textWordsNdjson i races).1.foldl (emit ndjsonLine) w,
          (TimedEmission.run g.textWordsNdjson i races).1,
          (TimedEmission.run g.textWordsNdjson i races).2⟩ := by
  induction races with
  | nil => intro w i hi; simp [streamNDJSON.forLoop, TimedEmission.run, hi]
  | cons s rest ih =>
    intro w i hi
    cases s with
    | done => simp [streamNDJSON.forLoop, TimedEmission.run, hi]
    | tick =>
      unfold streamNDJSON.forLoop TimedEmission.run
      by_cases h : i < g.textWordsNdjson.length
      · simp only [hi, h, if_true, dite_true]
        rw [ih _ _ (Nat.succ_le_of_lt h)]
        simp [tokenChunk, emit, ndjsonLine]
      · simp [hi, h, finishChunk, emit, ndjsonLine]

/-- Chunks of `streamSSE` on a writer that can flush. -/
theorem streamSSE_chunks (g : Globals) (w : ResponseWriter) (method now : String)
    (races : List Sel) (hw : w.flusher = true) :
    (streamSSE g w ⟨method, races, now⟩).chunks = (TimedEmission.run g.textWords 0 races).1 ∧
      (streamSSE g w ⟨method, races, now⟩).exit = (TimedEmission.run g.textWords 0 races).2 := by
  simp [streamSSE, hw, streamSSE_forLoop_eq]

/-- Chunks of `streamNDJSON` on a writer that can flush. -/
theorem streamNDJSON_chunks (g : Globals) (w : ResponseWriter) (method now : String)
    (races : List Sel) (hw : w.flusher = true) :
    (streamNDJSON g w ⟨method, races, now⟩).chunks
        = (TimedEmission.run g.textWordsNdjson 0 races).1 ∧
      (streamNDJSON g w ⟨method, races, now⟩).exit
        = (TimedEmission.run g.textWordsNdjson 0 races).2 := by
  simp [streamNDJSON, hw, streamNDJSON_forLoop_eq]


/-! ## Runs of the timed emission loop -/

/-- A prefix of `n` ticks, all of them on tokens, emits the next `n` token
chunks and leaves the loop at index `i + n`. -/
theorem TimedEmission.run_ticks (tokens : List String) (rest : List Sel) (n : Nat) :
    ∀ i : Nat, i + n ≤ tokens.length →
      TimedEmission.run tokens i (List.replicate n Sel.tick ++ rest) =
        (((tokens.drop i).take n).map tokenChunk ++ (TimedEmission.run tokens (i + n) rest).1,
          (TimedEmission.run tokens (i + n) rest).2) := by
  induction n with
  | zero => intro i _; simp
  | succ n ih =>
    intro i hi
    have h : i < tokens.length := by omega
    rw [List.replicate_succ, List.cons_append, TimedEmission.run, dif_pos h,
      ih (i + 1) (by omega), List.drop_eq_getElem_cons h, List.take_succ_cons, List.map_cons,
      List.cons_append, Nat.add_assoc, Nat.add_comm 1 n]

/-- Ticks only, at most as many as there are tokens: one token chunk per
tick, and the loop waits for the next race. -/
theorem TimedEmission.run_some_ticks (tokens : List String) (n : Nat) (hn : n ≤ tokens.length) :
    TimedEmission.run tokens 0 (List.replicate n Sel.tick) =
      ((tokens.take n).map tokenChunk, Exit.waiting) := by
  have h := TimedEmission.run_ticks tokens [] n 0 (by omega)
  simpa [TimedEmission.run] using h

/-- Ticks only, more than there are tokens: every token chunk, then the
finish chunk, and the loop has returned. -/
theorem TimedEmission.run_full (tokens : List String) (n : Nat) (hn : tokens.length + 1 ≤ n) :
    TimedEmission.run tokens 0 (List.replicate n Sel.tick) =
      (tokens.map tokenChunk ++ [finishChunk], Exit.returned) := by
  obtain ⟨m, rfl⟩ : ∃ m, n = tokens.length + (m + 1) := ⟨n - tokens.length - 1, by omega⟩
  rw [List.replicate_add, TimedEmission.run_ticks tokens _ tokens.length 0 (by omega),
    List.replicate_succ]
  simp [TimedEmission.run]

/-- Cancellation winning after `k` ticks on tokens: the first `k` token
chunks and nothing else, whatever follows in the schedule. -/
theorem TimedEmission.run_cancel (tokens : List String) (k : Nat) (tail : List Sel)
    (hk : k ≤ tokens.length) :
    TimedEmission.run tokens 0 (List.replicate k Sel.tick ++ Sel.done :: tail) =
      ((tokens.take k).map tokenChunk, Exit.returned) := by
  have h := TimedEmission.run_ticks tokens (Sel.done :: tail) k 0 (by omega)
  simpa [TimedEmission.run] using h

/-- Shape of every run: either token chunks only (the loop then waits, or
has returned on a cancellation), or all remaining token chunks followed by the
finish chunk (the loop has then returned). -/
theorem TimedEmission.run_shape (tokens : List String) (races : List Sel) :
    ∀ i : Nat,
      (∃ m, (TimedEmission.run tokens i races).1 = ((tokens.drop i).take m).map tokenChunk ∧
        ((TimedEmission.run tokens i races).2 = Exit.waiting ∨
          ((TimedEmission.run tokens i races).2 = Exit.returned ∧ Sel.done ∈ races))) ∨
      ((TimedEmission.run tokens i races).1 = (tokens.drop i).map tokenChunk ++ [finishChunk] ∧
        (TimedEmission.run tokens i races).2 = Exit.returned) := by
  induction races with
  | nil => intro i; exact Or.inl ⟨0, by simp [TimedEmission.run]⟩
  | cons s rest ih =>
    intro i
    cases s with
    | done => exact Or.inl ⟨0, by simp [TimedEmission.run]⟩
    | tick =>
      by_cases h : i < tokens.length
      · simp only [TimedEmission.run, dif_pos h]
        rcases ih (i + 1) with ⟨m, hc, he⟩ | ⟨hc, he⟩
        · refine Or.inl ⟨m + 1, ?_, ?_⟩
          · rw [hc, List.drop_eq_getElem_cons h, List.take_succ_cons, List.map_cons]
          · rcases he with he | ⟨he, hd⟩
            · exact Or.inl he
            · exact Or.inr ⟨he, List.mem_cons_of_mem _ hd⟩
        · refine Or.inr ⟨?_, he⟩
          rw [hc, List.drop_eq_getElem_cons h, List.map_cons, List.cons_append]
      · refine Or.inr ?_
        have : tokens.drop i = [] := List.drop_eq_nil_of_le (by omega)
        simp [TimedEmission.run, dif_neg h, this]


/-! ## Chunks, frames and contents -/

theorem append_space_ne_empty (t : String) : t ++ " " ≠ "" := by
  intro h
  have := congrArg String.length h
  simp only [String.length_append] at this
  have h1 : " ".length = 1 := by decide
  have h2 : "".length = 0 := by decide
  omega

theorem tokenChunk_injective : Function.Injective tokenChunk := by
  intro a b h
  have h1 : a ++ " " = b ++ " " := congrArg Chunk.Content h
  have h2 : a.data ++ " ".data = b.data ++ " ".data := by
    rw [← String.data_append, ← String.data_append, h1]
  exact String.ext (List.append_cancel_right h2)

/-- The body after a sequence of emissions: one frame per chunk, appended in
order. -/
theorem foldl_emit_body (frame : Chunk → String) (cs : List Chunk) :
    ∀ w : ResponseWriter, (cs.foldl (emit frame) w).body = w.body ++ cs.map frame := by
  induction cs with
  | nil => intro w; simp
  | cons c cs ih =>
    intro w
    rw [List.foldl_cons, ih]
    have : (emit frame w c).body = w.body ++ [frame c] := by
      obtain ⟨f, h, st, se, b, fl⟩ := w
      cases st <;>
        simp [emit, ResponseWriter.Flush, ResponseWriter.Write, ResponseWriter.WriteHeader]
    rw [this]
    simp

theorem concatContent_tokens (sep : String) (l : List String) (hl : l ≠ []) :
    concatContent (l.map (fun t => (⟨t ++ sep, false⟩ : Chunk)) ++ [finishChunk]) =
      strings.Join l sep ++ sep := by
  induction l with
  | nil => exact absurd rfl hl
  | cons a rest ih =>
    cases rest with
    | nil =>
      apply String.ext
      simp [concatContent, finishChunk, strings.Join]
    | cons b rest =>
      have h := ih (List.cons_ne_nil _ _)
      rw [List.map_cons, List.cons_append]
      show (a ++ sep) ++ concatContent _ = _
      rw [h]
      apply String.ext
      simp [strings.Join]

theorem countP_finish_tokens (l : List String) :
    (l.map tokenChunk).countP (fun c => c.Finish) = 0 := by
  induction l with
  | nil => rfl
  | cons a rest ih => simp [tokenChunk]


/-! ## Decoding the body -/

namespace json

theorem toNat_inj (a b : Char) (h : a.toNat = b.toNat) : a = b := by
  apply Char.ext
  apply UInt32.ext
  exact h

theorem hexVal_hexDigit : ∀ m < 16, hexVal (hexDigit m) = m := by decide

theorem hexVal_zero : hexVal '0' = 0 := by decide

theorem toNat_lt_64 (c : Char) (h : c.toNat < 32 ∨ c = '<' ∨ c = '>' ∨ c = '&') :
    c.toNat < 64 := by
  rcases h with h | h | h | h
  · omega
  · rw [h]; decide
  · rw [h]; decide
  · rw [h]; decide

theorem unescape_escapeChar (c : Char) (rest : List Char) :
    unescape (escapeChar c ++ rest) = some (c, rest) := by
  unfold escapeChar
  by_cases h1 : c = '"'
  · rw [if_pos h1, h1]; simp [unescape]
  rw [if_neg h1]
  by_cases h2 : c = '\\'
  · rw [if_pos h2, h2]; simp [unescape]
  rw [if_neg h2]
  by_cases h3 : c = '\n'
  · rw [if_pos h3, h3]; simp [unescape]
  rw [if_neg h3]
  by_cases h4 : c = '\r'
  · rw [if_pos h4, h4]; simp [unescape]
  rw [if_neg h4]
  by_cases h5 : c = '\t'
  · rw [if_pos h5, h5]; simp [unescape]
  rw [if_neg h5]
  by_cases h6 : c.toNat = 8
  · rw [if_pos h6, toNat_inj c (Char.ofNat 8) h6]; simp [unescape]
  rw [if_neg h6]
  by_cases h7 : c.toNat = 12
  · rw [if_pos h7, toNat_inj c (Char.ofNat 12) h7]; simp [unescape]
  rw [if_neg h7]
  by_cases h8 : c.toNat < 32 ∨ c = '<' ∨ c = '>' ∨ c = '&'
  · rw [if_pos h8]
    have hlt := toNat_lt_64 c h8
    have e1 := hexVal_hexDigit (c.toNat / 16) (by omega)
    have e2 := hexVal_hexDigit (c.toNat % 16) (by omega)
    simp only [unescape, List.cons_append, List.nil_append, hexVal_zero, e1, e2]
    simp
    have : c.toNat / 16 * 16 + c.toNat % 16 = c.toNat := by omega
    rw [this, Char.ofNat_toNat]
  rw [if_neg h8]
  by_cases h9 : c.toNat = 8232
  · rw [if_pos h9, toNat_inj c (Char.ofNat 8232) h9]; simp [unescape]; decide
  rw [if_neg h9]
  by_cases h10 : c.toNat = 8233
  · rw [if_pos h10, toNat_inj c (Char.ofNat 8233) h10]; simp [unescape]; decide
  rw [if_neg h10]
  simp [unescape, h2]

theorem escapeChar_cases (c : Char) :
    (c ≠ '"' ∧ escapeChar c = [c]) ∨ ∃ t, escapeChar c = '\\' :: t := by
  unfold escapeChar
  by_cases h1 : c = '"'
  · rw [if_pos h1]; exact Or.inr ⟨_, rfl⟩
  rw [if_neg h1]
  by_cases h2 : c = '\\'
  · rw [if_pos h2]; exact Or.inr ⟨_, rfl⟩
  rw [if_neg h2]
  by_cases h3 : c = '\n'
  · rw [if_pos h3]; exact Or.inr ⟨_, rfl⟩
  rw [if_neg h3]
  by_cases h4 : c = '\r'
  · rw [if_pos h4]; exact Or.inr ⟨_, rfl⟩
  rw [if_neg h4]
  by_cases h5 : c = '\t'
  · rw [if_pos h5]; exact Or.inr ⟨_, rfl⟩
  rw [if_neg h5]
  by_cases h6 : c.toNat = 8
  · rw [if_pos h6]; exact Or.inr ⟨_, rfl⟩
  rw [if_neg h6]
  by_cases h7 : c.toNat = 12
  · rw [if_pos h7]; exact Or.inr ⟨_, rfl⟩
  rw [if_neg h7]
  by_cases h8 : c.toNat < 32 ∨ c = '<' ∨ c = '>' ∨ c = '&'
  · rw [if_pos h8]; exact Or.inr ⟨_, rfl⟩
  rw [if_neg h8]
  by_cases h9 : c.toNat = 8232
  · rw [if_pos h9]; exact Or.inr ⟨_, rfl⟩
  rw [if_neg h9]
  by_cases h10 : c.toNat = 8233
  · rw [if_pos h10]; exact Or.inr ⟨_, rfl⟩
  rw [if_neg h10]
  exact Or.inl ⟨h1, rfl⟩

theorem escapeChar_head (c : Char) : ∃ h t, escapeChar c = h :: t ∧ h ≠ '"' := by
  rcases escapeChar_cases c with ⟨hne, he⟩ | ⟨t, he⟩
  · exact ⟨c, [], he, hne⟩
  · exact ⟨'\\', t, he, by decide⟩

/-- Reading back an escaped string body up to its closing quote. -/
theorem unquote_escaped (s : List Char) :
    ∀ (fuel : Nat) (r : List Char), s.length < fuel →
      unquote fuel (s.flatMap escapeChar ++ '"' :: r) = some (s, r) := by
  induction s with
  | nil =>
    intro fuel r hf
    obtain ⟨f, rfl⟩ : ∃ f, fuel = f + 1 := ⟨fuel - 1, by omega⟩
    simp [unquote]
  | cons c s ih =>
    intro fuel r hf
    obtain ⟨f, rfl⟩ : ∃ f, fuel = f + 1 := ⟨fuel - 1, by omega⟩
    have hs : s.length < f := by simpa using hf
    obtain ⟨h, t, he, hne⟩ := escapeChar_head c
    have hu := unescape_escapeChar c (s.flatMap escapeChar ++ '"' :: r)
    rw [he, List.cons_append] at hu
    rw [List.flatMap_cons, List.append_assoc, he, List.cons_append, unquote, if_neg hne, hu]
    simp only [ih f r hs]

theorem length_le_flatMap (s : List Char) : s.length ≤ (s.flatMap escapeChar).length := by
  induction s with
  | nil => simp
  | cons c s ih =>
    obtain ⟨h, t, he, _⟩ := escapeChar_head c
    rw [List.flatMap_cons, List.length_append, he]
    simp only [List.length_cons]
    omega

/-- The decoder reads back every chunk that `Marshal` writes. -/
theorem Unmarshal_Marshal (c : Chunk) : Unmarshal (Marshal c) = some c := by
  obtain ⟨content, finish⟩ := c
  have hdata : (Marshal ⟨content, finish⟩).data =
      "\x7b\"content\":\"".data ++ (content.data.flatMap escapeChar ++
        '"' :: (",\"finish\":".data ++ (bool finish).data ++ "\x7d".data)) := by
    simp [Marshal, quote, String.data_append]
  have hpre : "\x7b\"content\":\"".data.isPrefixOf (Marshal ⟨content, finish⟩).data = true := by
    rw [hdata]
    exact List.isPrefixOf_iff_prefix.mpr (List.prefix_append _ _)
  have hdrop : (Marshal ⟨content, finish⟩).data.drop 12 =
      content.data.flatMap escapeChar ++
        '"' :: (",\"finish\":".data ++ (bool finish).data ++ "\x7d".data) := by
    rw [hdata]
    exact List.drop_left' (by decide)
  have hfuel : content.data.length < (Marshal ⟨content, finish⟩).data.length := by
    rw [hdata, List.length_append, List.length_append]
    have := length_le_flatMap content.data
    simp only [List.length_cons]
    omega
  unfold Unmarshal
  rw [if_pos hpre, hdrop, unquote_escaped _ _ _ hfuel]
  cases finish
  · simp [bool]
  · simp [bool]

end json

theorem decodeSSE_sseFrame (c : Chunk) : decodeSSE (sseFrame c) = some c := by
  have hrev : (sseFrame c).data.reverse =
      '\n' :: '\n' :: ("data: ".data ++ (json.Marshal c).data).reverse := by
    simp [sseFrame, String.data_append]
  unfold decodeSSE
  rw [hrev]
  simp only [List.reverse_reverse, true_and]
  rw [if_pos (List.isPrefixOf_iff_prefix.mpr (List.prefix_append _ _)),
    List.drop_left' (by decide)]
  exact json.Unmarshal_Marshal c

theorem decodeNDJSON_ndjsonLine (c : Chunk) : decodeNDJSON (ndjsonLine c) = some c := by
  have hrev : (ndjsonLine c).data.reverse = '\n' :: (json.Marshal c).data.reverse := by
    simp [ndjsonLine, String.data_append]
  unfold decodeNDJSON
  rw [hrev]
  simp only [List.reverse_reverse, if_true]
  exact json.Unmarshal_Marshal c

theorem decodeAll_map (dec : String → Option Chunk) (frame : Chunk → String)
    (h : ∀ c, dec (frame c) = some c) (cs : List Chunk) :
    decodeAll dec (cs.map frame) = some cs := by
  induction cs with
  | nil => rfl
  | cons c cs ih => simp [decodeAll, h, ih]

/-- The body written by `streamSSE`: one SSE frame per chunk, in order. -/
theorem streamSSE_body (g : Globals) (w : ResponseWriter) (r : Request)
    (hw : w.flusher = true) :
    (streamSSE g w r).w.body = w.body ++ (streamSSE g w r).chunks.map sseFrame := by
  simp [streamSSE, hw, streamSSE_forLoop_eq, foldl_emit_body, ResponseWriter.Set]

/-- The body written by `streamNDJSON`: one JSON line per chunk, in order. -/
theorem streamNDJSON_body (g : Globals) (w : ResponseWriter) (r : Request)
    (hw : w.flusher = true) :
    (streamNDJSON g w r).w.body = w.body ++ (streamNDJSON g w r).chunks.map ndjsonLine := by
  simp [streamNDJSON, hw, streamNDJSON_forLoop_eq, foldl_emit_body, ResponseWriter.Set]

/-- The chunks of `streamSSE` are what a client decodes from the frames the
handler has added to the body. -/
theorem streamSSE_decoded (g : Globals) (w : ResponseWriter) (r : Request)
    (hw : w.flusher = true) :
    decodeAll decodeSSE ((streamSSE g w r).w.body.drop w.body.length)
      = some (streamSSE g w r).chunks := by
  rw [streamSSE_body g w r hw, List.drop_left]
  exact decodeAll_map _ _ decodeSSE_sseFrame _

/-- The chunks of `streamNDJSON` are what a client decodes from the lines the
handler has added to the body. -/
theorem streamNDJSON_decoded (g : Globals) (w : ResponseWriter) (r : Request)
    (hw : w.flusher = true) :
    decodeAll decodeNDJSON ((streamNDJSON g w r).w.body.drop w.body.length)
      = some (streamNDJSON g w r).chunks := by
  rw [streamNDJSON_body g w r hw, List.drop_left]
  exact decodeAll_map _ _ decodeNDJSON_ndjsonLine _

/-! ## Bounded streams: full runs -/

/-- C1. For `streamSSE` over `textWords` and `streamNDJSON` over
`textWordsNdjson`, `N` being the number of tokens: on a writer that can flush,
a run that receives only ticks, more than `N` of them, has returned after
exactly `N + 1` chunks; for every `i < N` chunk `i` has `finish = false` and
the content `tokens[i] + " "`, which is not empty, and chunk `N` has
`finish = true` and the content `""`. -/
theorem full_run_emits_tokens_then_finish (g : Globals) (w : ResponseWriter)
    (method now : String) (n m : Nat) (hw : w.flusher = true)
    (hn : g.textWords.length + 1 ≤ n) (hm : g.textWordsNdjson.length + 1 ≤ m) :
    ((streamSSE g w ⟨method, List.replicate n Sel.tick, now⟩).exit = Exit.returned ∧
      (streamSSE g w ⟨method, List.replicate n Sel.tick, now⟩).chunks.length
        = g.textWords.length + 1 ∧
      (∀ (i : Nat) (h : i < g.textWords.length),
        (streamSSE g w ⟨method, List.replicate n Sel.tick, now⟩).chunks[i]?
          = some ⟨g.textWords[i] ++ " ", false⟩ ∧ g.textWords[i] ++ " " ≠ "") ∧
      (streamSSE g w ⟨method, List.replicate n Sel.tick, now⟩).chunks[g.textWords.length]?
        = some ⟨"", true⟩) ∧
    ((streamNDJSON g w ⟨method, List.replicate m Sel.tick, now⟩).exit = Exit.returned ∧
      (streamNDJSON g w ⟨method, List.replicate m Sel.tick, now⟩).chunks.length
        = g.textWordsNdjson.length + 1 ∧
      (∀ (i : Nat) (h : i < g.textWordsNdjson.length),
        (streamNDJSON g w ⟨method, List.replicate m Sel.tick, now⟩).chunks[i]?
          = some ⟨g.textWordsNdjson[i] ++ " ", false⟩ ∧ g.textWordsNdjson[i] ++ " " ≠ "") ∧
      (streamNDJSON g w ⟨method, List.replicate m Sel.tick, now⟩).chunks[g.textWordsNdjson.length]?
        = some ⟨"", true⟩) := by
  have key : ∀ (tokens : List String) (k : Nat), tokens.length + 1 ≤ k →
      (TimedEmission.run tokens 0 (List.replicate k Sel.tick)).2 = Exit.returned ∧
      (TimedEmission.run tokens 0 (List.replicate k Sel.tick)).1.length = tokens.length + 1 ∧
      (∀ (i : Nat) (h : i < tokens.length),
        (TimedEmission.run tokens 0 (List.replicate k Sel.tick)).1[i]?
          = some ⟨tokens[i] ++ " ", false⟩ ∧ tokens[i] ++ " " ≠ "") ∧
      (TimedEmission.run tokens 0 (List.replicate k Sel.tick)).1[tokens.length]?
        = some ⟨"", true⟩ := by
    intro tokens k hk
    rw [TimedEmission.run_full tokens k hk]
    refine ⟨rfl, by simp, ?_, ?_⟩
    · intro i h
      refine ⟨?_, append_space_ne_empty _⟩
      rw [List.getElem?_append_left (by simpa using h)]
      simp [h, tokenChunk]
    · rw [List.getElem?_append_right (by simp)]
      simp [finishChunk]
  obtain ⟨hc, he⟩ := streamSSE_chunks g w method now (List.replicate n Sel.tick) hw
  obtain ⟨hc', he'⟩ := streamNDJSON_chunks g w method now (List.replicate m Sel.tick) hw
  rw [hc, he, hc', he']
  exact ⟨key _ _ hn, key _ _ hm⟩

set_option maxRecDepth 100000 in
/-- Witness of C1 on the program's own paragraphs: 101 ticks for the 100
tokens of `/stream-sse`, 106 ticks for the 105 tokens of `/stream-ndjson`. -/
theorem full_run_emits_tokens_then_finish_witness :
    (ResponseWriter.new true).flusher = true ∧ init.textWords.length + 1 ≤ 101 ∧
      init.textWordsNdjson.length + 1 ≤ 106 ∧
      (streamSSE init (ResponseWriter.new true)
        ⟨"GET", List.replicate 101 Sel.tick, ""⟩).exit = Exit.returned ∧
      (streamNDJSON init (ResponseWriter.new true)
        ⟨"GET", List.replicate 106 Sel.tick, ""⟩).exit = Exit.returned :=
  ⟨rfl, by decide, by decide,
    (full_run_emits_tokens_then_finish init (ResponseWriter.new true) "GET" "" 101 106 rfl
      (by decide) (by decide)).1.1,
    (full_run_emits_tokens_then_finish init (ResponseWriter.new true) "GET" "" 101 106 rfl
      (by decide) (by decide)).2.1⟩

/-! ## Bounded streams: cancellation -/

/-- C3. For `streamSSE` and `streamNDJSON` and every `k < N`: on a writer that
can flush, when cancellation wins the race after exactly `k` ticks, the
handler has returned, its chunks are exactly the first `k` token chunks, no
chunk has `finish = true`, and nothing of what follows in the schedule (`tail`)
adds a chunk. -/
theorem cancel_after_k_chunks (g : Globals) (w : ResponseWriter) (method now : String)
    (k k' : Nat) (tail : List Sel) (hw : w.flusher = true)
    (hk : k < g.textWords.length) (hk' : k' < g.textWordsNdjson.length) :
    ((streamSSE g w ⟨method, List.replicate k Sel.tick ++ Sel.done :: tail, now⟩).exit
        = Exit.returned ∧
      (streamSSE g w ⟨method, List.replicate k Sel.tick ++ Sel.done :: tail, now⟩).chunks
        = (g.textWords.take k).map (fun t => ⟨t ++ " ", false⟩) ∧
      (streamSSE g w ⟨method, List.replicate k Sel.tick ++ Sel.done :: tail, now⟩).chunks.length
        = k ∧
      ∀ c ∈ (streamSSE g w ⟨method, List.replicate k Sel.tick ++ Sel.done :: tail, now⟩).chunks,
        c.Finish = false) ∧
    ((streamNDJSON g w ⟨method, List.replicate k' Sel.tick ++ Sel.done :: tail, now⟩).exit
        = Exit.returned ∧
      (streamNDJSON g w ⟨method, List.replicate k' Sel.tick ++ Sel.done :: tail, now⟩).chunks
        = (g.textWordsNdjson.take k').map (fun t => ⟨t ++ " ", false⟩) ∧
      (streamNDJSON g w ⟨method, List.replicate k' Sel.tick ++ Sel.done :: tail, now⟩).chunks.length
        = k' ∧
      ∀ c ∈ (streamNDJSON g w
          ⟨method, List.replicate k' Sel.tick ++ Sel.done :: tail, now⟩).chunks,
        c.Finish = false) := by
  have key : ∀ (tokens : List String) (j : Nat), j < tokens.length →
      (TimedEmission.run tokens 0 (List.replicate j Sel.tick ++ Sel.done :: tail)).2
        = Exit.returned ∧
      (TimedEmission.run tokens 0 (List.replicate j Sel.tick ++ Sel.done :: tail)).1
        = (tokens.take j).map (fun t => ⟨t ++ " ", false⟩) ∧
      (TimedEmission.run tokens 0 (List.replicate j Sel.tick ++ Sel.done :: tail)).1.length = j ∧
      ∀ c ∈ (TimedEmission.run tokens 0 (List.replicate j Sel.tick ++ Sel.done :: tail)).1,
        c.Finish = false := by
    intro tokens j hj
    rw [TimedEmission.run_cancel tokens j tail (Nat.le_of_lt hj)]
    refine ⟨rfl, rfl, ?_, ?_⟩
    · simp [Nat.min_eq_left (Nat.le_of_lt hj)]
    · intro c hc
      obtain ⟨t, _, rfl⟩ := List.mem_map.mp hc
      rfl
  obtain ⟨hc, he⟩ :=
    streamSSE_chunks g w method now (List.replicate k Sel.tick ++ Sel.done :: tail) hw
  obtain ⟨hc', he'⟩ :=
    streamNDJSON_chunks g w method now (List.replicate k' Sel.tick ++ Sel.done :: tail) hw
  rw [hc, he, hc', he']
  exact ⟨key _ _ hk, key _ _ hk'⟩

set_option maxRecDepth 100000 in
/-- Witness of C3 on the program's paragraphs: cancellation after 2 ticks of
`/stream-sse` and after 3 ticks of `/stream-ndjson`, with ticks still
following. -/
theorem cancel_after_k_chunks_witness :
    (ResponseWriter.new true).flusher = true ∧ 2 < init.textWords.length ∧
      3 < init.textWordsNdjson.length ∧
      (streamSSE init (ResponseWriter.new true)
        ⟨"GET", List.replicate 2 Sel.tick ++ Sel.done :: [Sel.tick, Sel.tick], ""⟩).chunks.length
        = 2 ∧
      (streamNDJSON init (ResponseWriter.new true)
        ⟨"GET", List.replicate 3 Sel.tick ++ Sel.done :: [Sel.tick, Sel.tick], ""⟩).chunks.length
        = 3 :=
  ⟨rfl, by decide, by decide,
    (cancel_after_k_chunks init (ResponseWriter.new true) "GET" "" 2 3 [Sel.tick, Sel.tick] rfl
      (by decide) (by decide)).1.2.2.1,
    (cancel_after_k_chunks init (ResponseWriter.new true) "GET" "" 2 3 [Sel.tick, Sel.tick] rfl
      (by decide) (by decide)).2.2.2.1⟩


/-! ## Bounded streams: the finish chunk -/

theorem finish_of_mem_tokens (l : List String) (c : Chunk) (hc : c ∈ l.map tokenChunk) :
    c.Finish = false := by
  obtain ⟨t, _, rfl⟩ := List.mem_map.mp hc
  rfl

theorem countP_finish_tokens_finish (l : List String) :
    (l.map tokenChunk ++ [finishChunk]).countP (fun c => c.Finish) = 1 := by
  rw [List.countP_append, countP_finish_tokens]
  rfl

theorem finish_is_last (l : List String) (i : Nat) (c : Chunk)
    (hi : (l.map tokenChunk ++ [finishChunk])[i]? = some c) (hc : c.Finish = true) :
    i + 1 = (l.map tokenChunk ++ [finishChunk]).length := by
  by_cases h : i < (l.map tokenChunk).length
  · rw [List.getElem?_append_left h] at hi
    have := finish_of_mem_tokens l c (List.getElem?_mem hi)
    rw [this] at hc
    exact absurd hc (by decide)
  · have hlt : i < (l.map tokenChunk ++ [finishChunk]).length := by
      by_contra hge
      rw [List.getElem?_eq_none (Nat.le_of_not_lt hge)] at hi
      exact absurd hi (by simp)
    simp only [List.length_append, List.length_map, List.length_singleton] at h hlt ⊢
    omega

/-- The finish-chunk facts for a run of the timed emission loop. -/
theorem TimedEmission.finish_facts (tokens : List String) (races : List Sel) (i : Nat) :
    (∀ c ∈ (TimedEmission.run tokens i races).1, c.Finish = true → c.Content = "") ∧
    (TimedEmission.run tokens i races).1.countP (fun c => c.Finish) ≤ 1 ∧
    (∀ (j : Nat) (c : Chunk), (TimedEmission.run tokens i races).1[j]? = some c →
      c.Finish = true → j + 1 = (TimedEmission.run tokens i races).1.length) ∧
    ((TimedEmission.run tokens i races).2 = Exit.waiting →
      (TimedEmission.run tokens i races).1.countP (fun c => c.Finish) = 0) ∧
    ((TimedEmission.run tokens i races).2 = Exit.returned →
      (TimedEmission.run tokens i races).1.countP (fun c => c.Finish) = 1 ∨
      ((TimedEmission.run tokens i races).1.countP (fun c => c.Finish) = 0 ∧
        Sel.done ∈ races)) ∧
    (Sel.done ∉ races → (TimedEmission.run tokens i races).2 = Exit.returned →
      (TimedEmission.run tokens i races).1.countP (fun c => c.Finish) = 1) ∧
    (TimedEmission.run tokens i races).2 ≠ Exit.panicked := by
  rcases TimedEmission.run_shape tokens races i with ⟨m, hc, he⟩ | ⟨hc, he⟩
  · rw [hc]
    have h0 := countP_finish_tokens ((tokens.drop i).take m)
    refine ⟨?_, by omega, ?_, fun _ => h0, ?_, ?_, ?_⟩
    · intro c hmem hf
      rw [finish_of_mem_tokens _ c hmem] at hf
      exact absurd hf (by decide)
    · intro j c hj hf
      rw [finish_of_mem_tokens _ c (List.getElem?_mem hj)] at hf
      exact absurd hf (by decide)
    · intro hr
      rcases he with he | ⟨_, hd⟩
      · rw [he] at hr; exact absurd hr (by decide)
      · exact Or.inr ⟨h0, hd⟩
    · intro hnd hr
      rcases he with he | ⟨_, hd⟩
      · rw [he] at hr; exact absurd hr (by decide)
      · exact absurd hd hnd
    · rcases he with he | ⟨he, _⟩ <;> rw [he] <;> decide
  · rw [hc, he]
    have h1 := countP_finish_tokens_finish (tokens.drop i)
    refine ⟨?_, by omega, finish_is_last _, ?_, fun _ => Or.inl h1, fun _ _ => h1, by decide⟩
    · intro c hmem hf
      rcases List.mem_append.mp hmem with h | h
      · rw [finish_of_mem_tokens _ c h] at hf
        exact absurd hf (by decide)
      · rw [List.mem_singleton.mp h]; rfl
    · intro h; exact absurd h (by decide)


/-- C9, as stated, fails: a request to `/stream-sse` whose first race is won
by cancellation has run to its termination without any chunk, so the number of
`finish = true` chunks is 0, not 1. -/
theorem cancelled_run_has_no_finish_chunk :
    (streamSSE init (ResponseWriter.new true) ⟨"GET", [Sel.done], ""⟩).exit = Exit.returned ∧
      (streamSSE init (ResponseWriter.new true) ⟨"GET", [Sel.done], ""⟩).chunks = [] ∧
      (streamSSE init (ResponseWriter.new true) ⟨"GET", [Sel.done], ""⟩).chunks.countP
        (fun c => c.Finish) ≠ 1 := by
  obtain ⟨hc, he⟩ := streamSSE_chunks init (ResponseWriter.new true) "GET" "" [Sel.done] rfl
  rw [hc, he]
  simp [TimedEmission.run]

/-- C9, amended. For `streamSSE` and `streamNDJSON`, on a writer that can
flush and for every schedule of ticks and cancellations: every chunk with
`finish = true` has the content `""`; at most one chunk has `finish = true`;
such a chunk is the last chunk emitted; while the handler waits no such chunk
has been emitted; a handler that has returned has emitted exactly one, or none
and then cancellation is in the schedule; with no cancellation in the
schedule a handler that has returned has emitted exactly one. -/
theorem finish_chunk_at_most_once_and_last (g : Globals) (w : ResponseWriter) (r : Request)
    (hw : w.flusher = true) :
    ((∀ c ∈ (streamSSE g w r).chunks, c.Finish = true → c.Content = "") ∧
      (streamSSE g w r).chunks.countP (fun c => c.Finish) ≤ 1 ∧
      (∀ (j : Nat) (c : Chunk), (streamSSE g w r).chunks[j]? = some c →
        c.Finish = true → j + 1 = (streamSSE g w r).chunks.length) ∧
      ((streamSSE g w r).exit = Exit.waiting →
        (streamSSE g w r).chunks.countP (fun c => c.Finish) = 0) ∧
      ((streamSSE g w r).exit = Exit.returned →
        (streamSSE g w r).chunks.countP (fun c => c.Finish) = 1 ∨
        ((streamSSE g w r).chunks.countP (fun c => c.Finish) = 0 ∧ Sel.done ∈ r.races)) ∧
      (Sel.done ∉ r.races → (streamSSE g w r).exit = Exit.returned →
        (streamSSE g w r).chunks.countP (fun c => c.Finish) = 1) ∧
      (streamSSE g w r).exit ≠ Exit.panicked) ∧
    ((∀ c ∈ (streamNDJSON g w r).chunks, c.Finish = true → c.Content = "") ∧
      (streamNDJSON g w r).chunks.countP (fun c => c.Finish) ≤ 1 ∧
      (∀ (j : Nat) (c : Chunk), (streamNDJSON g w r).chunks[j]? = some c →
        c.Finish = true → j + 1 = (streamNDJSON g w r).chunks.length) ∧
      ((streamNDJSON g w r).exit = Exit.waiting →
        (streamNDJSON g w r).chunks.countP (fun c => c.Finish) = 0) ∧
      ((streamNDJSON g w r).exit = Exit.returned →
        (streamNDJSON g w r).chunks.countP (fun c => c.Finish) = 1 ∨
        ((streamNDJSON g w r).chunks.countP (fun c => c.Finish) = 0 ∧ Sel.done ∈ r.races)) ∧
      (Sel.done ∉ r.races → (streamNDJSON g w r).exit = Exit.returned →
        (streamNDJSON g w r).chunks.countP (fun c => c.Finish) = 1) ∧
      (streamNDJSON g w r).exit ≠ Exit.panicked) := by
  obtain ⟨method, races, now⟩ := r
  obtain ⟨hc, he⟩ := streamSSE_chunks g w method now races hw
  obtain ⟨hc', he'⟩ := streamNDJSON_chunks g w method now races hw
  rw [hc, he, hc', he']
  exact ⟨TimedEmission.finish_facts _ _ _, TimedEmission.finish_facts _ _ _⟩

set_option maxRecDepth 100000 in
/-- Witness of the amended C9 on the program's paragraphs: two ticks, then a
cancellation. -/
theorem finish_chunk_at_most_once_and_last_witness :
    (ResponseWriter.new true).flusher = true ∧
      (streamSSE init (ResponseWriter.new true)
        ⟨"GET", [Sel.tick, Sel.tick, Sel.done], ""⟩).chunks.countP (fun c => c.Finish) ≤ 1 ∧
      (streamNDJSON init (ResponseWriter.new true)
        ⟨"GET", [Sel.tick, Sel.tick, Sel.done], ""⟩).chunks.countP (fun c => c.Finish) ≤ 1 :=
  ⟨rfl,
    (finish_chunk_at_most_once_and_last init (ResponseWriter.new true)
      ⟨"GET", [Sel.tick, Sel.tick, Sel.done], ""⟩ rfl).1.2.1,
    (finish_chunk_at_most_once_and_last init (ResponseWriter.new true)
      ⟨"GET", [Sel.tick, Sel.tick, Sel.done], ""⟩ rfl).2.2.1⟩

/-! ## Bounded streams: contents against the source paragraphs -/

/-- Contents of a full run over a non-empty `tokens`: the tokens rejoined
with spaces, followed by one more space. -/
theorem concatContent_full_run (tokens : List String) (n : Nat) (ht : tokens ≠ [])
    (hn : tokens.length + 1 ≤ n) :
    concatContent (TimedEmission.run tokens 0 (List.replicate n Sel.tick)).1 =
      strings.Join tokens " " ++ " " := by
  rw [TimedEmission.run_full tokens n hn]
  exact concatContent_tokens " " tokens ht

theorem append_space_ne_self (s : String) : s ++ " " ≠ s := by
  intro h
  have := congrArg String.length h
  simp only [String.length_append] at this
  have h1 : " ".length = 1 := by decide
  omega

theorem space_ne_empty : (" " : String) ≠ "" := by decide

set_option maxRecDepth 100000 in
theorem init_textWords_ne_nil : init.textWords ≠ [] := by
  show strings.Split paragraph " " ≠ []
  exact strings.Split_ne_nil paragraph " " space_ne_empty

set_option maxRecDepth 100000 in
theorem init_textWordsNdjson_ne_nil : init.textWordsNdjson ≠ [] := by
  show strings.Split paragraphNdjson " " ≠ []
  exact strings.Split_ne_nil paragraphNdjson " " space_ne_empty

set_option maxRecDepth 100000 in
theorem init_loopText_ne_nil : init.loopText ≠ [] := by
  show strings.Split loop " " ≠ []
  exact strings.Split_ne_nil loop " " space_ne_empty

set_option maxRecDepth 100000 in
theorem Join_init_textWords : strings.Join init.textWords " " = paragraph := by
  show strings.Join (strings.Split paragraph " ") " " = paragraph
  exact strings.Join_Split paragraph " " space_ne_empty

set_option maxRecDepth 100000 in
theorem Join_init_textWordsNdjson : strings.Join init.textWordsNdjson " " = paragraphNdjson := by
  show strings.Join (strings.Split paragraphNdjson " ") " " = paragraphNdjson
  exact strings.Join_Split paragraphNdjson " " space_ne_empty

set_option maxRecDepth 100000 in
theorem init_textWords_length : init.textWords.length = 100 := by decide

set_option maxRecDepth 100000 in
theorem init_textWordsNdjson_length : init.textWordsNdjson.length = 105 := by decide

set_option maxRecDepth 100000 in
theorem init_loopText_length : init.loopText.length = 47 := by decide

/-- C2, as stated, fails: the contents of the 100 token chunks of a full
`/stream-sse` run, concatenated, are not the paragraph that `init` split. -/
theorem concat_of_full_run_ne_paragraph :
    concatContent (streamSSE init (ResponseWriter.new true)
      ⟨"GET", List.replicate 101 Sel.tick, ""⟩).chunks ≠ paragraph := by
  obtain ⟨hc, _⟩ := streamSSE_chunks init (ResponseWriter.new true) "GET" ""
    (List.replicate 101 Sel.tick) rfl
  rw [hc, concatContent_full_run _ _ init_textWords_ne_nil (by rw [init_textWords_length]),
    Join_init_textWords]
  exact append_space_ne_self _

/-- C2, amended. For `/stream-sse` and `/stream-ndjson` on a writer that can
flush: concatenating in emission order the contents of the `finish = false`
chunks of a full uninterrupted run gives the source paragraph that `init`
split followed by exactly one space. -/
theorem concat_of_full_run_eq_paragraph_space (w : ResponseWriter) (method now : String)
    (n m : Nat) (hw : w.flusher = true)
    (hn : init.textWords.length + 1 ≤ n) (hm : init.textWordsNdjson.length + 1 ≤ m) :
    concatContent (streamSSE init w ⟨method, List.replicate n Sel.tick, now⟩).chunks
        = paragraph ++ " " ∧
      concatContent (streamNDJSON init w ⟨method, List.replicate m Sel.tick, now⟩).chunks
        = paragraphNdjson ++ " " := by
  obtain ⟨hc, _⟩ := streamSSE_chunks init w method now (List.replicate n Sel.tick) hw
  obtain ⟨hc', _⟩ := streamNDJSON_chunks init w method now (List.replicate m Sel.tick) hw
  rw [hc, hc', concatContent_full_run _ _ init_textWords_ne_nil hn,
    concatContent_full_run _ _ init_textWordsNdjson_ne_nil hm, Join_init_textWords,
    Join_init_textWordsNdjson]
  exact ⟨rfl, rfl⟩

set_option maxRecDepth 100000 in
/-- Witness of the amended C2: 101 ticks on `/stream-sse`, 106 on
`/stream-ndjson`. -/
theorem concat_of_full_run_eq_paragraph_space_witness :
    (ResponseWriter.new true).flusher = true ∧ init.textWords.length + 1 ≤ 101 ∧
      init.textWordsNdjson.length + 1 ≤ 106 ∧
      concatContent (streamSSE init (ResponseWriter.new true)
        ⟨"GET", List.replicate 101 Sel.tick, ""⟩).chunks = paragraph ++ " " ∧
      concatContent (streamNDJSON init (ResponseWriter.new true)
        ⟨"GET", List.replicate 106 Sel.tick, ""⟩).chunks = paragraphNdjson ++ " " :=
  ⟨rfl, by decide, by decide,
    concat_of_full_run_eq_paragraph_space (ResponseWriter.new true) "GET" "" 101 106 rfl
      (by decide) (by decide)⟩


/-! ## The two bounded streams compared -/

/-- C4, as stated, fails: the full uninterrupted runs of `/stream-ndjson`
(106 chunks, written as 106 lines) and of `/stream-sse` (101 chunks, written
as 101 frames) do not have the same chunk sequence. -/
theorem ndjson_chunks_ne_sse_chunks :
    (streamNDJSON init (ResponseWriter.new true)
        ⟨"GET", List.replicate 106 Sel.tick, ""⟩).exit = Exit.returned ∧
      (streamSSE init (ResponseWriter.new true)
        ⟨"GET", List.replicate 101 Sel.tick, ""⟩).exit = Exit.returned ∧
      (streamNDJSON init (ResponseWriter.new true)
        ⟨"GET", List.replicate 106 Sel.tick, ""⟩).chunks.length = 106 ∧
      (streamSSE init (ResponseWriter.new true)
        ⟨"GET", List.replicate 101 Sel.tick, ""⟩).chunks.length = 101 ∧
      (streamNDJSON init (ResponseWriter.new true)
        ⟨"GET", List.replicate 106 Sel.tick, ""⟩).w.body.length = 106 ∧
      (streamSSE init (ResponseWriter.new true)
        ⟨"GET", List.replicate 101 Sel.tick, ""⟩).w.body.length = 101 ∧
      decodeAll decodeNDJSON (streamNDJSON init (ResponseWriter.new true)
        ⟨"GET", List.replicate 106 Sel.tick, ""⟩).w.body ≠
      decodeAll decodeSSE (streamSSE init (ResponseWriter.new true)
        ⟨"GET", List.replicate 101 Sel.tick, ""⟩).w.body ∧
      (streamNDJSON init (ResponseWriter.new true)
        ⟨"GET", List.replicate 106 Sel.tick, ""⟩).chunks ≠
      (streamSSE init (ResponseWriter.new true)
        ⟨"GET", List.replicate 101 Sel.tick, ""⟩).chunks := by
  have hd := streamSSE_decoded init (ResponseWriter.new true)
    ⟨"GET", List.replicate 101 Sel.tick, ""⟩ rfl
  have hd' := streamNDJSON_decoded init (ResponseWriter.new true)
    ⟨"GET", List.replicate 106 Sel.tick, ""⟩ rfl
  rw [show (ResponseWriter.new true).body.length = 0 from rfl, List.drop_zero] at hd hd'
  rw [hd, hd']
  obtain ⟨hc, he⟩ := streamSSE_chunks init (ResponseWriter.new true) "GET" ""
    (List.replicate 101 Sel.tick) rfl
  obtain ⟨hc', he'⟩ := streamNDJSON_chunks init (ResponseWriter.new true) "GET" ""
    (List.replicate 106 Sel.tick) rfl
  rw [streamSSE_body init (ResponseWriter.new true) _ rfl,
    streamNDJSON_body init (ResponseWriter.new true) _ rfl, hc, he, hc', he',
    TimedEmission.run_full init.textWords 101 (by rw [init_textWords_length]),
    TimedEmission.run_full init.textWordsNdjson 106 (by rw [init_textWordsNdjson_length])]
  have h1 : (init.textWordsNdjson.map tokenChunk ++ [finishChunk]).length = 106 := by
    simp [init_textWordsNdjson_length]
  have h2 : (init.textWords.map tokenChunk ++ [finishChunk]).length = 101 := by
    simp [init_textWords_length]
  have hne : init.textWordsNdjson.map tokenChunk ++ [finishChunk]
      ≠ init.textWords.map tokenChunk ++ [finishChunk] := by
    intro h
    rw [h, h2] at h1
    exact absurd h1 (by decide)
  refine ⟨rfl, rfl, h1, h2, ?_, ?_, ?_, hne⟩
  · rw [List.length_append, List.length_map, h1]; rfl
  · rw [List.length_append, List.length_map, h2]; rfl
  intro h
  exact hne (Option.some.inj h)

/-- C4, amended. On a writer that can flush, the chunk sequence of a full
uninterrupted `/stream-ndjson` run is made from `textWordsNdjson` exactly as
the one of a full uninterrupted `/stream-sse` run is made from `textWords`
(one chunk `{token + " ", false}` per token in order, then `{"", true}`), each
body being the encodings of these chunks in order (JSON lines, SSE frames),
from which a client decodes them back; the two chunk sequences are equal
exactly when the two token sequences are. -/
theorem ndjson_and_sse_chunks_follow_their_tokens (g : Globals) (w : ResponseWriter)
    (method now : String) (n m : Nat) (hw : w.flusher = true)
    (hn : g.textWords.length + 1 ≤ n) (hm : g.textWordsNdjson.length + 1 ≤ m) :
    (streamSSE g w ⟨method, List.replicate n Sel.tick, now⟩).chunks
        = g.textWords.map (fun t => ⟨t ++ " ", false⟩) ++ [⟨"", true⟩] ∧
      (streamNDJSON g w ⟨method, List.replicate m Sel.tick, now⟩).chunks
        = g.textWordsNdjson.map (fun t => ⟨t ++ " ", false⟩) ++ [⟨"", true⟩] ∧
      (streamSSE g w ⟨method, List.replicate n Sel.tick, now⟩).w.body
        = w.body ++ (streamSSE g w ⟨method, List.replicate n Sel.tick, now⟩).chunks.map
            (fun c => "data: " ++ json.Marshal c ++ "\n\n") ∧
      (streamNDJSON g w ⟨method, List.replicate m Sel.tick, now⟩).w.body
        = w.body ++ (streamNDJSON g w ⟨method, List.replicate m Sel.tick, now⟩).chunks.map
            (fun c => json.Marshal c ++ "\n") ∧
      decodeAll decodeSSE
          ((streamSSE g w ⟨method, List.replicate n Sel.tick, now⟩).w.body.drop w.body.length)
        = some (streamSSE g w ⟨method, List.replicate n Sel.tick, now⟩).chunks ∧
      decodeAll decodeNDJSON
          ((streamNDJSON g w ⟨method, List.replicate m Sel.tick, now⟩).w.body.drop w.body.length)
        = some (streamNDJSON g w ⟨method, List.replicate m Sel.tick, now⟩).chunks ∧
      ((streamNDJSON g w ⟨method, List.replicate m Sel.tick, now⟩).chunks
          = (streamSSE g w ⟨method, List.replicate n Sel.tick, now⟩).chunks
        ↔ g.textWordsNdjson = g.textWords) := by
  obtain ⟨hc, _⟩ := streamSSE_chunks g w method now (List.replicate n Sel.tick) hw
  obtain ⟨hc', _⟩ := streamNDJSON_chunks g w method now (List.replicate m Sel.tick) hw
  refine ⟨?_, ?_, streamSSE_body g w _ hw, streamNDJSON_body g w _ hw,
    streamSSE_decoded g w _ hw, streamNDJSON_decoded g w _ hw, ?_⟩
  · rw [hc, TimedEmission.run_full _ _ hn]; rfl
  · rw [hc', TimedEmission.run_full _ _ hm]; rfl
  · rw [hc, hc', TimedEmission.run_full _ _ hn, TimedEmission.run_full _ _ hm]
    constructor
    · intro h
      exact List.map_injective_iff.mpr tokenChunk_injective (List.append_cancel_right h)
    · intro h
      rw [h]

set_option maxRecDepth 100000 in
/-- Witness of the amended C4 on the program's paragraphs: 101 ticks on
`/stream-sse`, 106 on `/stream-ndjson`. -/
theorem ndjson_and_sse_chunks_follow_their_tokens_witness :
    (ResponseWriter.new true).flusher = true ∧ init.textWords.length + 1 ≤ 101 ∧
      init.textWordsNdjson.length + 1 ≤ 106 ∧
      (streamNDJSON init (ResponseWriter.new true)
        ⟨"GET", List.replicate 106 Sel.tick, ""⟩).chunks
        = init.textWordsNdjson.map (fun t => ⟨t ++ " ", false⟩) ++ [⟨"", true⟩] :=
  ⟨rfl, by decide, by decide,
    (ndjson_and_sse_chunks_follow_their_tokens init (ResponseWriter.new true) "GET" "" 101 106
      rfl (by decide) (by decide)).2.1⟩

/-! ## The snapshot message -/

set_option maxRecDepth 100000 in
/-- C6. The `message` field built by `standardData`,
`strings.Join(textWords, " ")`, split on the space gives back exactly the
token sequence `textWords`; the message is the paragraph that `init` split;
and the handler writes the encoding of the document holding it. -/
theorem message_split_gives_textWords (w : ResponseWriter) (r : Request) :
    strings.Split (standardData.data init r.now).message " " = init.textWords ∧
      (standardData.data init r.now).message = paragraph ∧
      (standardData init w r).w.body
        = w.body ++ [json.EncodeData (standardData.data init r.now)] := by
  have hm : (standardData.data init r.now).message = paragraph := Join_init_textWords
  refine ⟨?_, hm, ?_⟩
  · rw [hm]; rfl
  · obtain ⟨f, h, st, se, b, fl⟩ := w
    cases st <;>
      simp [standardData, ResponseWriter.Write, ResponseWriter.WriteHeader, ResponseWriter.Set]

/-! ## CORS preflight -/

/-- An `OPTIONS` request through `enableCORS` on a new writer: the result,
whatever the wrapped handler is. -/
theorem enableCORS_options (next : HandlerFunc) (flusher : Bool) (r : Request)
    (hr : r.Method = "OPTIONS") :
    enableCORS next (ResponseWriter.new flusher) r =
      ⟨⟨flusher, corsHeader, some 200, corsHeader, [], 0⟩, [], Exit.returned⟩ := by
  simp [enableCORS, hr, ResponseWriter.new, ResponseWriter.Set, ResponseWriter.WriteHeader,
    http.StatusOK, corsHeader]

/-- C7. For every handler wrapped by `enableCORS`, and so for every route
registered in `main`, and every request whose method is `OPTIONS`, on a new
writer: the status is 200, the body is empty, the response carries
`Access-Control-Allow-Origin: *`, `Access-Control-Allow-Methods: GET, OPTIONS`
and `Access-Control-Allow-Headers: Content-Type`, and the wrapped handler is
not invoked (the outcome is the same whatever the wrapped handler is, and no
chunk is emitted). -/
theorem options_request_short_circuits (bits : Nat) (g : Globals) (flusher : Bool)
    (r : Request) (hr : r.Method = "OPTIONS") :
    (∀ next : HandlerFunc,
      (enableCORS next (ResponseWriter.new flusher) r).exit = Exit.returned ∧
      (enableCORS next (ResponseWriter.new flusher) r).w.status = some 200 ∧
      (enableCORS next (ResponseWriter.new flusher) r).w.body = [] ∧
      (enableCORS next (ResponseWriter.new flusher) r).chunks = [] ∧
      ResponseWriter.Get (enableCORS next (ResponseWriter.new flusher) r).w.sent
        "Access-Control-Allow-Origin" = some "*" ∧
      ResponseWriter.Get (enableCORS next (ResponseWriter.new flusher) r).w.sent
        "Access-Control-Allow-Methods" = some "GET, OPTIONS" ∧
      ResponseWriter.Get (enableCORS next (ResponseWriter.new flusher) r).w.sent
        "Access-Control-Allow-Headers" = some "Content-Type") ∧
    (∀ next next' : HandlerFunc,
      enableCORS next (ResponseWriter.new flusher) r
        = enableCORS next' (ResponseWriter.new flusher) r) ∧
    (∀ route ∈ main.routes bits g,
      (route.2 (ResponseWriter.new flusher) r).exit = Exit.returned ∧
      (route.2 (ResponseWriter.new flusher) r).w.status = some 200 ∧
      (route.2 (ResponseWriter.new flusher) r).w.body = [] ∧
      (route.2 (ResponseWriter.new flusher) r).chunks = [] ∧
      ResponseWriter.Get (route.2 (ResponseWriter.new flusher) r).w.sent
        "Access-Control-Allow-Origin" = some "*" ∧
      ResponseWriter.Get (route.2 (ResponseWriter.new flusher) r).w.sent
        "Access-Control-Allow-Methods" = some "GET, OPTIONS" ∧
      ResponseWriter.Get (route.2 (ResponseWriter.new flusher) r).w.sent
        "Access-Control-Allow-Headers" = some "Content-Type") := by
  have key : ∀ next : HandlerFunc,
      (enableCORS next (ResponseWriter.new flusher) r).exit = Exit.returned ∧
      (enableCORS next (ResponseWriter.new flusher) r).w.status = some 200 ∧
      (enableCORS next (ResponseWriter.new flusher) r).w.body = [] ∧
      (enableCORS next (ResponseWriter.new flusher) r).chunks = [] ∧
      ResponseWriter.Get (enableCORS next (ResponseWriter.new flusher) r).w.sent
        "Access-Control-Allow-Origin" = some "*" ∧
      ResponseWriter.Get (enableCORS next (ResponseWriter.new flusher) r).w.sent
        "Access-Control-Allow-Methods" = some "GET, OPTIONS" ∧
      ResponseWriter.Get (enableCORS next (ResponseWriter.new flusher) r).w.sent
        "Access-Control-Allow-Headers" = some "Content-Type" := by
    intro next
    rw [enableCORS_options next flusher r hr]
    have h1 : ResponseWriter.Get corsHeader "Access-Control-Allow-Origin" = some "*" := by
      decide
    have h2 : ResponseWriter.Get corsHeader "Access-Control-Allow-Methods"
        = some "GET, OPTIONS" := by decide
    have h3 : ResponseWriter.Get corsHeader "Access-Control-Allow-Headers"
        = some "Content-Type" := by decide
    exact ⟨rfl, rfl, rfl, rfl, h1, h2, h3⟩
  refine ⟨key, ?_, ?_⟩
  · intro next next'
    rw [enableCORS_options next flusher r hr, enableCORS_options next' flusher r hr]
  · intro route hroute
    simp only [main.routes, List.mem_cons, List.mem_singleton, List.not_mem_nil, or_false]
      at hroute
    rcases hroute with h | h | h | h | h | h <;> subst h <;> exact key _

/-- Witness of C7: an `OPTIONS` request to the route `/stream-sse`. -/
theorem options_request_short_circuits_witness :
    (⟨"OPTIONS", [Sel.tick], ""⟩ : Request).Method = "OPTIONS" ∧
      (enableCORS (streamSSE init) (ResponseWriter.new true) ⟨"OPTIONS", [Sel.tick], ""⟩).w.body
        = [] :=
  ⟨rfl,
    ((options_request_short_circuits 64 init true ⟨"OPTIONS", [Sel.tick], ""⟩ rfl).1
      (streamSSE init)).2.2.1⟩


/-! ## Writers that cannot flush -/

theorem find_filter_append_ne (l : List (String × String)) (k k' v : String) (h : k ≠ k') :
    (l.filter (fun kv => kv.1 != k) ++ [(k, v)]).find? (fun kv => kv.1 == k')
      = l.find? (fun kv => kv.1 == k') := by
  induction l with
  | nil => simp [h]
  | cons a rest ih =>
    by_cases ha : a.1 = k
    · have hk' : ¬ a.1 = k' := fun e => h (ha.symm.trans e)
      rw [List.filter_cons_of_neg (by simp [ha]), List.find?_cons_of_neg _ (by simp [hk']), ih]
    · rw [List.filter_cons_of_pos (by simp [ha]), List.cons_append]
      by_cases hb : a.1 = k'
      · rw [List.find?_cons_of_pos _ (by simp [hb]), List.find?_cons_of_pos _ (by simp [hb])]
      · rw [List.find?_cons_of_neg _ (by simp [hb]), List.find?_cons_of_neg _ (by simp [hb]),
          ih]

theorem find_filter_append_self (l : List (String × String)) (k v : String) :
    (l.filter (fun kv => kv.1 != k) ++ [(k, v)]).find? (fun kv => kv.1 == k) = some (k, v) := by
  induction l with
  | nil => simp
  | cons a rest ih =>
    by_cases ha : a.1 = k
    · rw [List.filter_cons_of_neg (by simp [ha]), ih]
    · rw [List.filter_cons_of_pos (by simp [ha]), List.cons_append,
        List.find?_cons_of_neg _ (by simp [ha]), ih]

theorem Get_append_single_ne (l : List (String × String)) (k k' v : String) (h : k ≠ k') :
    ResponseWriter.Get (l.filter (fun kv => kv.1 != k) ++ [(k, v)]) k'
      = ResponseWriter.Get l k' := by
  unfold ResponseWriter.Get
  rw [find_filter_append_ne l k k' v h]

theorem Get_append_single_self (l : List (String × String)) (k v : String) :
    ResponseWriter.Get (l.filter (fun kv => kv.1 != k) ++ [(k, v)]) k = some v := by
  unfold ResponseWriter.Get
  rw [find_filter_append_self l k v]
  rfl

/-- C8. For `streamSSE`, `streamNDJSON` and `streamLoop`: on a writer that
does not support flushing the handler only makes the call
`http.Error(w, "Streaming unsupported", 500)` and returns, whatever the
schedule: no chunk, nothing written but the error line
`"Streaming unsupported\n"`; on a writer whose status line is not yet sent the
status is 500 and the content type sent is the plain-text one; the headers
`Cache-Control` and `Connection` are as they were before the handler (no
streaming header is set). -/
theorem no_flusher_gives_500 (bits : Nat) (g : Globals) (w : ResponseWriter) (r : Request)
    (hw : w.flusher = false) :
    streamSSE g w r = ⟨http.Error w "Streaming unsupported" 500, [], Exit.returned⟩ ∧
    streamNDJSON g w r = ⟨http.Error w "Streaming unsupported" 500, [], Exit.returned⟩ ∧
    streamLoop bits g w r = ⟨http.Error w "Streaming unsupported" 500, [], Exit.returned⟩ ∧
    (http.Error w "Streaming unsupported" 500).body = w.body ++ ["Streaming unsupported\n"] ∧
    (w.status = none →
      (http.Error w "Streaming unsupported" 500).status = some 500 ∧
      ResponseWriter.Get (http.Error w "Streaming unsupported" 500).sent "Content-Type"
        = some "text/plain; charset=utf-8") ∧
    ResponseWriter.Get (http.Error w "Streaming unsupported" 500).header "Content-Type"
      = some "text/plain; charset=utf-8" ∧
    ResponseWriter.Get (http.Error w "Streaming unsupported" 500).header "Cache-Control"
      = ResponseWriter.Get w.header "Cache-Control" ∧
    ResponseWriter.Get (http.Error w "Streaming unsupported" 500).header "Connection"
      = ResponseWriter.Get w.header "Connection" := by
  have hct : ∀ l : List (String × String),
      ResponseWriter.Get
        ((l.filter (fun kv => kv.1 != "Content-Type")
            ++ [("Content-Type", "text/plain; charset=utf-8")]).filter
            (fun kv => kv.1 != "X-Content-Type-Options")
          ++ [("X-Content-Type-Options", "nosniff")]) "Content-Type"
        = some "text/plain; charset=utf-8" := by
    intro l
    rw [Get_append_single_ne _ _ _ _ (by decide), Get_append_single_self]
  have hother : ∀ (l : List (String × String)) (k : String), "Content-Type" ≠ k →
      "X-Content-Type-Options" ≠ k →
      ResponseWriter.Get
        ((l.filter (fun kv => kv.1 != "Content-Type")
            ++ [("Content-Type", "text/plain; charset=utf-8")]).filter
            (fun kv => kv.1 != "X-Content-Type-Options")
          ++ [("X-Content-Type-Options", "nosniff")]) k
        = ResponseWriter.Get l k := by
    intro l k h1 h2
    rw [Get_append_single_ne _ _ _ _ h2, Get_append_single_ne _ _ _ _ h1]
  obtain ⟨f, h, st, se, b, fl⟩ := w
  simp only at hw
  subst hw
  refine ⟨by simp [streamSSE, http.StatusInternalServerError],
    by simp [streamNDJSON, http.StatusInternalServerError],
    by simp [streamLoop, http.StatusInternalServerError], ?_, ?_, ?_, ?_, ?_⟩
  · cases st <;>
      simp [http.Error, ResponseWriter.Write, ResponseWriter.WriteHeader, ResponseWriter.Set]
  · intro hst
    simp only at hst
    subst hst
    refine ⟨by simp [http.Error, ResponseWriter.Write, ResponseWriter.WriteHeader,
      ResponseWriter.Set], ?_⟩
    simpa [http.Error, ResponseWriter.Write, ResponseWriter.WriteHeader, ResponseWriter.Set]
      using hct h
  · cases st <;>
      simpa [http.Error, ResponseWriter.Write, ResponseWriter.WriteHeader, ResponseWriter.Set]
        using hct h
  · cases st <;>
      simpa [http.Error, ResponseWriter.Write, ResponseWriter.WriteHeader, ResponseWriter.Set]
        using hother h "Cache-Control" (by decide) (by decide)
  · cases st <;>
      simpa [http.Error, ResponseWriter.Write, ResponseWriter.WriteHeader, ResponseWriter.Set]
        using hother h "Connection" (by decide) (by decide)

/-- Witness of C8: the three handlers on a new writer that cannot flush, with
ticks in the schedule. -/
theorem no_flusher_gives_500_witness :
    (ResponseWriter.new false).flusher = false ∧
      streamSSE init (ResponseWriter.new false) ⟨"GET", [Sel.tick, Sel.tick], ""⟩
        = ⟨⟨false,
            [("Content-Type", "text/plain; charset=utf-8"), ("X-Content-Type-Options", "nosniff")],
            some 500,
            [("Content-Type", "text/plain; charset=utf-8"), ("X-Content-Type-Options", "nosniff")],
            ["Streaming unsupported\n"], 0⟩, [], Exit.returned⟩ :=
  ⟨rfl,
    (no_flusher_gives_500 64 init (ResponseWriter.new false) ⟨"GET", [Sel.tick, Sel.tick], ""⟩
      rfl).1.trans (by decide)⟩


/-! ## The looping stream -/

theorem foldl_writeFlush_body (fs : List String) :
    ∀ w : ResponseWriter, (fs.foldl writeFlush w).body = w.body ++ fs := by
  induction fs with
  | nil => intro w; simp
  | cons f fs ih =>
    intro w
    rw [List.foldl_cons, ih]
    have : (writeFlush w f).body = w.body ++ [f] := by
      obtain ⟨fl, h, st, se, b, n⟩ := w
      cases st <;>
        simp [writeFlush, ResponseWriter.Flush, ResponseWriter.Write, ResponseWriter.WriteHeader]
    rw [this]
    simp

theorem two_pow_bits (bits : Nat) (hb : 1 ≤ bits) :
    (2 : Int) ^ bits = 2 * 2 ^ (bits - 1) := by
  obtain ⟨b, rfl⟩ : ∃ b, bits = b + 1 := ⟨bits - 1, by omega⟩
  rw [Nat.add_sub_cancel, pow_succ]
  ring

/-- No overflow below the largest `int`: the value is unchanged. -/
theorem wrapInt_of_lt (bits : Nat) (hb : 1 ≤ bits) (x : Int) (h0 : 0 ≤ x)
    (hx : x < 2 ^ (bits - 1)) : wrapInt bits x = x := by
  unfold wrapInt
  rw [two_pow_bits bits hb]
  have hpos : (0 : Int) < 2 ^ (bits - 1) := by positivity
  rw [Int.emod_eq_of_lt (by omega) (by omega)]
  omega

/-- Overflow: one more than the largest `int` is the smallest `int`. -/
theorem wrapInt_two_pow (bits : Nat) (hb : 1 ≤ bits) :
    wrapInt bits (2 ^ (bits - 1)) = -2 ^ (bits - 1) := by
  unfold wrapInt
  rw [two_pow_bits bits hb]
  have : (2 : Int) ^ (bits - 1) + 2 ^ (bits - 1) = 2 * 2 ^ (bits - 1) := by ring
  rw [this, Int.emod_self]
  omega

/-- One tick of the loop with a counter that is not negative: the frame of
the counter is written and flushed, the counter is incremented in `int`. -/
theorem streamLoop.forLoop_tick (bits : Nat) (g : Globals) (w : ResponseWriter) (a : Nat)
    (rest : List Sel) (hL : g.loopText ≠ []) :
    streamLoop.forLoop bits g w (a : Int) (Sel.tick :: rest) =
      streamLoop.forLoop bits g (writeFlush w (loopFrame g a)) (wrapInt bits ((a : Int) + 1))
        rest := by
  have hlen : 0 < g.loopText.length := List.length_pos.mpr hL
  have hlt : a % g.loopText.length < g.loopText.length := Nat.mod_lt _ hlen
  have hidx : Int.tmod (a : Int) (g.loopText.length : Int) = ((a % g.loopText.length : Nat) : Int) :=
    (Int.ofNat_tmod a g.loopText.length).symm
  rw [streamLoop.forLoop, if_neg (by omega)]
  simp only [hidx]
  rw [if_neg (by omega), Int.toNat_ofNat, List.getElem?_eq_getElem hlt]
  simp only [loopFrame, writeFlush, List.getElem?_eq_getElem hlt, Option.getD_some]

/-- One tick of the loop when Go's remainder `i % len(loopText)` is negative:
the index expression panics; nothing is written. -/
theorem streamLoop.forLoop_tick_neg (bits : Nat) (g : Globals) (w : ResponseWriter) (i : Int)
    (rest : List Sel) (hL : g.loopText ≠ [])
    (hneg : Int.tmod i (g.loopText.length : Int) < 0) :
    streamLoop.forLoop bits g w i (Sel.tick :: rest) = ⟨w, i, Exit.panicked⟩ := by
  have hlen : 0 < g.loopText.length := List.length_pos.mpr hL
  rw [streamLoop.forLoop, if_neg (by omega)]
  simp only [hneg, if_true]

/-- Ticks while the counter stays below the largest `int`: one frame per
tick, frame `k` for counter value `k`. -/
theorem streamLoop.forLoop_ticks (bits : Nat) (g : Globals) (rest : List Sel)
    (hb : 1 ≤ bits) (hL : g.loopText ≠ []) (n : Nat) :
    ∀ (w : ResponseWriter) (a : Nat), a + n < 2 ^ (bits - 1) →
      streamLoop.forLoop bits g w (a : Int) (List.replicate n Sel.tick ++ rest) =
        streamLoop.forLoop bits g (((List.range' a n).map (loopFrame g)).foldl writeFlush w)
          ((a + n : Nat) : Int) rest := by
  induction n with
  | zero => intro w a _; simp
  | succ n ih =>
    intro w a ha
    have hw : wrapInt bits ((a : Int) + 1) = ((a + 1 : Nat) : Int) := by
      rw [wrapInt_of_lt bits hb _ (by omega)]
      · push_cast; rfl
      · have : ((a + 1 : Nat) : Int) < ((2 ^ (bits - 1) : Nat) : Int) := by
          exact_mod_cast (by omega : a + 1 < 2 ^ (bits - 1))
        push_cast at this
        exact this
    rw [List.replicate_succ, List.cons_append, streamLoop.forLoop_tick bits g w a _ hL, hw,
      ih _ (a + 1) (by omega), List.range'_succ, List.map_cons, List.foldl_cons]
    congr 2
    omega


/-- The first `2 ^ (bits - 1)` ticks: one frame per tick, and the increment
after the last of them overflows: the counter is the smallest `int`. -/
theorem streamLoop.forLoop_wrap (bits : Nat) (g : Globals) (w : ResponseWriter)
    (rest : List Sel) (hb : 1 ≤ bits) (hL : g.loopText ≠ []) :
    streamLoop.forLoop bits g w 0 (List.replicate (2 ^ (bits - 1)) Sel.tick ++ rest) =
      streamLoop.forLoop bits g
        (((List.range' 0 (2 ^ (bits - 1))).map (loopFrame g)).foldl writeFlush w)
        (-2 ^ (bits - 1)) rest := by
  obtain ⟨m, hm⟩ : ∃ m, 2 ^ (bits - 1) = m + 1 :=
    ⟨2 ^ (bits - 1) - 1, by have := @Nat.one_le_two_pow (bits - 1); omega⟩
  have hcast : ((m : Int) + 1) = 2 ^ (bits - 1) := by
    have : ((m + 1 : Nat) : Int) = ((2 ^ (bits - 1) : Nat) : Int) := by rw [hm]
    push_cast at this
    exact this
  rw [hm, List.replicate_succ', List.append_assoc, List.singleton_append]
  have h0 := streamLoop.forLoop_ticks bits g (Sel.tick :: rest) hb hL m w 0 (by omega)
  rw [Nat.cast_zero] at h0
  rw [h0, Nat.zero_add, streamLoop.forLoop_tick bits g _ m rest hL, hcast,
    wrapInt_two_pow bits hb, List.range'_concat, List.map_append, List.foldl_append]
  simp

/-- While the counter has not overflowed the looping stream is as claimed:
after `n ≤ 2 ^ (bits - 1)` ticks and no cancellation the handler waits for the
next race and has written exactly the frames `0 .. n - 1`. -/
theorem streamLoop_frames_before_wraparound (bits : Nat) (g : Globals) (w : ResponseWriter)
    (method now : String) (n : Nat) (hw : w.flusher = true) (hb : 1 ≤ bits)
    (hL : g.loopText ≠ []) (hn : n ≤ 2 ^ (bits - 1)) :
    (streamLoop bits g w ⟨method, List.replicate n Sel.tick, now⟩).exit = Exit.waiting ∧
      (streamLoop bits g w ⟨method, List.replicate n Sel.tick, now⟩).w.body
        = w.body ++ (List.range n).map (loopFrame g) := by
  rcases Nat.lt_or_ge n (2 ^ (bits - 1)) with h | h
  · have h0 := streamLoop.forLoop_ticks bits g [] hb hL n
      (((w.Set "Content-Type" "text/event-stream").Set "Cache-Control" "no-cache").Set
        "Connection" "keep-alive") 0 (by omega)
    rw [Nat.cast_zero, List.append_nil] at h0
    simp only [streamLoop, hw, h0, streamLoop.forLoop, foldl_writeFlush_body,
      List.range_eq_range']
    simp [ResponseWriter.Set, foldl_writeFlush_body]
  · have hn' : n = 2 ^ (bits - 1) := Nat.le_antisymm hn h
    subst hn'
    have h0 := streamLoop.forLoop_wrap bits g
      (((w.Set "Content-Type" "text/event-stream").Set "Cache-Control" "no-cache").Set
        "Connection" "keep-alive") [] hb hL
    rw [List.append_nil] at h0
    simp only [streamLoop, hw, h0, streamLoop.forLoop, foldl_writeFlush_body,
      List.range_eq_range']
    simp [ResponseWriter.Set, foldl_writeFlush_body]

/-- The tick after the overflow: when the smallest `int` is not a multiple of
`len(loopText)` the index is negative and the handler panics, with exactly
`2 ^ (bits - 1)` frames written, whatever follows in the schedule. -/
theorem streamLoop_panics (bits : Nat) (g : Globals) (w : ResponseWriter)
    (method now : String) (rest : List Sel) (hw : w.flusher = true) (hb : 1 ≤ bits)
    (hL : g.loopText ≠ [])
    (hneg : Int.tmod (-2 ^ (bits - 1)) (g.loopText.length : Int) < 0) :
    (streamLoop bits g w
        ⟨method, List.replicate (2 ^ (bits - 1)) Sel.tick ++ Sel.tick :: rest, now⟩).exit
        = Exit.panicked ∧
      (streamLoop bits g w
        ⟨method, List.replicate (2 ^ (bits - 1)) Sel.tick ++ Sel.tick :: rest, now⟩).w.body
        = w.body ++ (List.range (2 ^ (bits - 1))).map (loopFrame g) := by
  have h0 := streamLoop.forLoop_wrap bits g
    (((w.Set "Content-Type" "text/event-stream").Set "Cache-Control" "no-cache").Set
      "Connection" "keep-alive") (Sel.tick :: rest) hb hL
  simp only [streamLoop, hw, h0, streamLoop.forLoop_tick_neg bits g _ _ rest hL hneg,
    foldl_writeFlush_body, List.range_eq_range']
  simp [ResponseWriter.Set, foldl_writeFlush_body]


theorem init_tmod_64 : Int.tmod (-2 ^ (64 - 1)) (init.loopText.length : Int) = -36 := by
  rw [init_loopText_length]
  decide

theorem init_tmod_32 : Int.tmod (-2 ^ (32 - 1)) (init.loopText.length : Int) = -21 := by
  rw [init_loopText_length]
  decide

/-- C5 at its failing input. With a 64-bit `int`, `/stream-loop` on a writer
that can flush, given `2 ^ 63 + 1` ticks and no cancellation, has written
`2 ^ 63` frames, not `2 ^ 63 + 1`, and has terminated by a panic; with a
32-bit `int` the same happens at `2 ^ 31 + 1` ticks. -/
theorem streamLoop_panics_after_int_overflow :
    (streamLoop 64 init (ResponseWriter.new true)
        ⟨"GET", List.replicate (2 ^ 63 + 1) Sel.tick, ""⟩).exit = Exit.panicked ∧
      (streamLoop 64 init (ResponseWriter.new true)
        ⟨"GET", List.replicate (2 ^ 63 + 1) Sel.tick, ""⟩).w.body.length = 2 ^ 63 ∧
      (streamLoop 32 init (ResponseWriter.new true)
        ⟨"GET", List.replicate (2 ^ 31 + 1) Sel.tick, ""⟩).exit = Exit.panicked ∧
      (streamLoop 32 init (ResponseWriter.new true)
        ⟨"GET", List.replicate (2 ^ 31 + 1) Sel.tick, ""⟩).w.body.length = 2 ^ 31 := by
  have h64 := streamLoop_panics 64 init (ResponseWriter.new true) "GET" "" [] rfl (by decide)
    init_loopText_ne_nil (by rw [init_tmod_64]; decide)
  have h32 := streamLoop_panics 32 init (ResponseWriter.new true) "GET" "" [] rfl (by decide)
    init_loopText_ne_nil (by rw [init_tmod_32]; decide)
  rw [List.replicate_succ', List.replicate_succ']
  refine ⟨h64.1, ?_, h32.1, ?_⟩
  · rw [h64.2, List.length_append, List.length_map, List.length_range]
    rfl
  · rw [h32.2, List.length_append, List.length_map, List.length_range]
    rfl

/-- C10 at its failing input. `len(loopText)` is 47, so the modulo never
divides by zero; but with a 64-bit `int` the counter of `streamLoop`,
incremented once per tick from 0, is `-2 ^ 63` after `2 ^ 63` ticks (the
handler then waits for the next race), `i % len(loopText)` is then `-36`, and
the next tick panics on the index; with a 32-bit `int` the counter is
`-2 ^ 31` after `2 ^ 31` ticks and the index is `-21`. -/
theorem loop_index_negative_after_int_overflow :
    init.loopText.length = 47 ∧
      (streamLoop.forLoop 64 init (ResponseWriter.new true) 0
        (List.replicate (2 ^ 63) Sel.tick)).i = -2 ^ 63 ∧
      (streamLoop.forLoop 64 init (ResponseWriter.new true) 0
        (List.replicate (2 ^ 63) Sel.tick)).exit = Exit.waiting ∧
      Int.tmod (-2 ^ 63) (init.loopText.length : Int) = -36 ∧
      (streamLoop.forLoop 64 init (ResponseWriter.new true) (-2 ^ 63) [Sel.tick]).exit
        = Exit.panicked ∧
      (streamLoop.forLoop 32 init (ResponseWriter.new true) 0
        (List.replicate (2 ^ 31) Sel.tick)).i = -2 ^ 31 ∧
      Int.tmod (-2 ^ 31) (init.loopText.length : Int) = -21 ∧
      (streamLoop.forLoop 32 init (ResponseWriter.new true) (-2 ^ 31) [Sel.tick]).exit
        = Exit.panicked := by
  have h64 := streamLoop.forLoop_wrap 64 init (ResponseWriter.new true) [] (by decide)
    init_loopText_ne_nil
  have h32 := streamLoop.forLoop_wrap 32 init (ResponseWriter.new true) [] (by decide)
    init_loopText_ne_nil
  rw [List.append_nil] at h64 h32
  have p64 := streamLoop.forLoop_tick_neg 64 init (ResponseWriter.new true) (-2 ^ (64 - 1)) []
    init_loopText_ne_nil (by rw [init_tmod_64]; decide)
  have p32 := streamLoop.forLoop_tick_neg 32 init (ResponseWriter.new true) (-2 ^ (32 - 1)) []
    init_loopText_ne_nil (by rw [init_tmod_32]; decide)
  refine ⟨init_loopText_length, ?_, ?_, init_tmod_64, ?_, ?_, init_tmod_32, ?_⟩
  · exact (congrArg LoopRun.i h64).trans rfl
  · exact (congrArg LoopRun.exit h64).trans rfl
  · exact (congrArg LoopRun.exit p64).trans rfl
  · exact (congrArg LoopRun.i h32).trans rfl
  · exact (congrArg LoopRun.exit p32).trans rfl

end SseApi
